import Mathlib

/-!
# mgo-wrapper: a shallow embedding of the connection manager and its wrappers

The Go package wraps the MongoDB driver.  The driver, the DSN parser and the
read-preference helpers are external collaborators: they are a parameter
(`Driver`) of every definition below.  Calls that reach the driver's client,
database, collection or cursor objects are recorded in a trace, and the driver
answers each call as a function of the calls made so far.

Go pointers are modelled as follows: a nil-able pointer is an `Option`; the
wrappers allocated by this package (`&Collection{...}`, `&Cursor{...}`) live in
an append-only heap and are identified by their address, so reference equality
of two wrappers is equality of addresses.  A Go panic (nil dereference, write
to a nil map) is an `Except.error`.
-/

namespace MgoWrapper

/-! ## Values owned by the driver and the standard library -/

/-- Go `error` values that are not nil: the package variable
`ErrorSessionNotInit`, and errors produced by the collaborators. -/
inductive Error where
  | ErrorSessionNotInit
  | driver (code : Nat)
  deriving DecidableEq, Repr

/-- Run-time faults of the Go code. -/
inductive Panic where
  | nilDereference
  | nilMapWrite
  deriving DecidableEq, Repr

/-- Non-nil `context.Context` values; a nil context is `none`. -/
inductive GoContext where
  | Background
  | WithTimeout (parent : GoContext) (nanoseconds : Nat)
  | user (id : Nat)
  deriving DecidableEq, Repr

/-- A `readpref.Option` value. -/
structure ReadprefOption where
  id : Nat
  deriving DecidableEq, Repr

/-- A `readpref.Mode` value. -/
structure ReadprefMode where
  id : Nat
  deriving DecidableEq, Repr

/-- A `*readpref.ReadPref` value. -/
structure ReadPref where
  id : Nat
  deriving DecidableEq, Repr

/-- The parsed connection string (`*dsnParser.DSN`); only `Database` is read. -/
structure DSN where
  Database : String
  deriving DecidableEq, Repr

/-- A non-nil `*mongo.Client`. -/
structure ClientHandle where
  id : Nat
  deriving DecidableEq, Repr

/-- A non-nil `*mongo.Database`. -/
structure DatabaseHandle where
  id : Nat
  deriving DecidableEq, Repr

/-- A non-nil `*mongo.Collection`. -/
structure CollectionHandle where
  id : Nat
  deriving DecidableEq, Repr

/-- A non-nil `*mongo.Cursor`. -/
structure CursorHandle where
  id : Nat
  deriving DecidableEq, Repr

/-- An `interface{}` argument (filter, pipeline, document, update, model). -/
structure Value where
  id : Nat
  deriving DecidableEq, Repr

/-- A result object of the driver (`*mongo.DeleteResult`, `mongo.IndexView`, ...);
a nil result pointer is `none`. -/
structure ResultRef where
  id : Nat
  deriving DecidableEq, Repr

/-- The variadic `opts ...*options.XxxOptions` slice, forwarded as `opts...`. -/
abbrev Opts := List Nat

/-- The value built by `options.Client().ApplyURI(dsn).SetReadPreference(readPref)`. -/
structure ClientOptions where
  uri : String
  readPreference : ReadPref
  deriving DecidableEq, Repr

/-! ## options.go -/

/-- The struct `Options`. `ModeOpts` is a slice (nil is `none`), `Context` an
interface value (nil is `none`). -/
structure Options where
  Dsn : String
  Mode : String
  ModeOpts : Option (List ReadprefOption)
  Context : Option GoContext
  deriving DecidableEq, Repr

/-- The type `Option func(*Options)` of options.go: a mutation of the settings. -/
abbrev ConfigOption := Options → Options

/-- The option `Dsn(dsn)`. -/
def Dsn (dsn : String) : ConfigOption := fun opts => { opts with Dsn := dsn }

/-- The option `Mode(mode)`. -/
def Mode (mode : String) : ConfigOption := fun opts => { opts with Mode := mode }

/-- The option `ModeOpts(val)`. -/
def ModeOpts (val : Option (List ReadprefOption)) : ConfigOption :=
  fun opts => { opts with ModeOpts := val }

/-- The option `Context(ctx)`. -/
def Context (ctx : Option GoContext) : ConfigOption := fun opts => { opts with Context := ctx }

/-! ## The driver as a parameter -/

/-- One call that reached a driver object, with its receiver and arguments in
the order of the driver's signature. -/
inductive DriverCall where
  | Connect (ctx : Option GoContext) (opts : ClientOptions)
  | Ping (client : ClientHandle) (ctx : Option GoContext) (rp : ReadPref)
  | Disconnect (client : ClientHandle) (ctx : Option GoContext)
  | Database (client : ClientHandle) (name : String)
  | Drop (db : DatabaseHandle) (ctx : Option GoContext)
  | Collection (db : DatabaseHandle) (name : String)
  | Aggregate (c : CollectionHandle) (ctx : Option GoContext) (pipeline : Value) (opts : Opts)
  | CountDocuments (c : CollectionHandle) (ctx : Option GoContext) (filter : Value) (opts : Opts)
  | DeleteMany (c : CollectionHandle) (ctx : Option GoContext) (filter : Value) (opts : Opts)
  | DeleteOne (c : CollectionHandle) (ctx : Option GoContext) (filter : Value) (opts : Opts)
  | Distinct (c : CollectionHandle) (ctx : Option GoContext) (fieldName : String)
      (filter : Value) (opts : Opts)
  | Find (c : CollectionHandle) (ctx : Option GoContext) (filter : Value) (opts : Opts)
  | InsertMany (c : CollectionHandle) (ctx : Option GoContext) (documents : List Value)
      (opts : Opts)
  | InsertOne (c : CollectionHandle) (ctx : Option GoContext) (document : Value) (opts : Opts)
  | ReplaceOne (c : CollectionHandle) (ctx : Option GoContext) (filter : Value)
      (replacement : Value) (opts : Opts)
  | UpdateMany (c : CollectionHandle) (ctx : Option GoContext) (filter : Value)
      (update : Value) (opts : Opts)
  | UpdateOne (c : CollectionHandle) (ctx : Option GoContext) (filter : Value)
      (update : Value) (opts : Opts)
  | BulkWrite (c : CollectionHandle) (ctx : Option GoContext) (models : List Value)
      (opts : Opts)
  | Indexes (c : CollectionHandle)
  | CursorNext (cur : CursorHandle) (ctx : Option GoContext)
  | CursorTryNext (cur : CursorHandle) (ctx : Option GoContext)
  deriving DecidableEq, Repr

/-- The collaborators.  The three configuration helpers are pure; every other
operation answers as a function of the calls made before it.  `Connect` follows
the driver's contract of returning a nil client together with every error. -/
structure Driver where
  dsnParserNew : String → Except Error DSN
  ModeFromString : String → Except Error ReadprefMode
  readprefNew : ReadprefMode → Option (List ReadprefOption) → Except Error ReadPref
  Primary : ReadPref
  Connect : List DriverCall → Option GoContext → ClientOptions → Except Error ClientHandle
  Ping : List DriverCall → ClientHandle → Option GoContext → ReadPref → Option Error
  Disconnect : List DriverCall → ClientHandle → Option GoContext → Option Error
  Database : List DriverCall → ClientHandle → String → DatabaseHandle
  Drop : List DriverCall → DatabaseHandle → Option GoContext → Option Error
  Collection : List DriverCall → DatabaseHandle → String → CollectionHandle
  Aggregate : List DriverCall → CollectionHandle → Option GoContext → Value → Opts →
    Option CursorHandle × Option Error
  CountDocuments : List DriverCall → CollectionHandle → Option GoContext → Value → Opts →
    Int × Option Error
  DeleteMany : List DriverCall → CollectionHandle → Option GoContext → Value → Opts →
    Option ResultRef × Option Error
  DeleteOne : List DriverCall → CollectionHandle → Option GoContext → Value → Opts →
    Option ResultRef × Option Error
  Distinct : List DriverCall → CollectionHandle → Option GoContext → String → Value → Opts →
    Option (List Value) × Option Error
  Find : List DriverCall → CollectionHandle → Option GoContext → Value → Opts →
    Option CursorHandle × Option Error
  InsertMany : List DriverCall → CollectionHandle → Option GoContext → List Value → Opts →
    Option ResultRef × Option Error
  InsertOne : List DriverCall → CollectionHandle → Option GoContext → Value → Opts →
    Option ResultRef × Option Error
  ReplaceOne : List DriverCall → CollectionHandle → Option GoContext → Value → Value → Opts →
    Option ResultRef × Option Error
  UpdateMany : List DriverCall → CollectionHandle → Option GoContext → Value → Value → Opts →
    Option ResultRef × Option Error
  UpdateOne : List DriverCall → CollectionHandle → Option GoContext → Value → Value → Opts →
    Option ResultRef × Option Error
  BulkWrite : List DriverCall → CollectionHandle → Option GoContext → List Value → Opts →
    Option ResultRef × Option Error
  Indexes : List DriverCall → CollectionHandle → ResultRef
  CursorNext : List DriverCall → CursorHandle → Option GoContext → Bool
  CursorTryNext : List DriverCall → CursorHandle → Option GoContext → Bool

/-! ## collection.go, cursor.go, database.go: data -/

/-- The struct `Collection`: one reference to the driver's collection. -/
structure Collection where
  collection : CollectionHandle
  deriving DecidableEq, Repr

/-- The struct `Cursor`: one reference to the driver's cursor. -/
structure Cursor where
  cursor : Option CursorHandle
  deriving DecidableEq, Repr

/-- The struct `Mongodb`; its mutex `mx` is part of `Concurrent` below, where
callers run concurrently.  `collections` maps a name to the address of its
wrapper; a nil map is `none`. -/
structure Mongodb where
  name : String
  conn : Option Options
  client : Option ClientHandle
  database : Option DatabaseHandle
  collections : Option (List (String × Nat))
  deriving DecidableEq, Repr

/-- The value `new(Mongodb)`. -/
def Mongodb.zero : Mongodb :=
  { name := "", conn := none, client := none, database := none, collections := none }

/-- What exists besides a manager: the `Collection` wrappers allocated so far
(address = index), the `Cursor` wrappers allocated so far, and the calls made
to the driver so far. -/
structure World where
  heap : List Collection
  cursors : List Cursor
  trace : List DriverCall
  deriving DecidableEq, Repr

/-- One manager in its world. -/
structure State extends World where
  m : Mongodb
  deriving DecidableEq, Repr

/-- The constants `DefaultMode` and `DefaultContextTimeout` (in nanoseconds). -/
def DefaultMode : String := "primary"

/-- Five seconds, as a `time.Duration`. -/
def DefaultContextTimeout : Nat := 5 * 1000000000

/-! ## database.go: operations -/

/-- The method `(m *Mongodb) open()`.  Reading `m.conn.Dsn` faults when the
stored configuration is nil.  The parser, the mode lookup and the
read-preference constructor return early with their error; `mongo.Connect`
assigns `m.client` before its error is tested; the cache map and the database
reference are assigned only after the connectivity ping succeeded. -/
def Mongodb.open (drv : Driver) (s : State) : Except Panic (State × Option Error) :=
  match s.m.conn with
  | none => .error .nilDereference
  | some conn =>
    match drv.dsnParserNew conn.Dsn with
    | .error err => .ok (s, some err)
    | .ok dsn =>
      match drv.ModeFromString conn.Mode with
      | .error err => .ok (s, some err)
      | .ok mode =>
        match drv.readprefNew mode conn.ModeOpts with
        | .error err => .ok (s, some err)
        | .ok readPref =>
          let opts : ClientOptions := { uri := conn.Dsn, readPreference := readPref }
          let t1 := s.trace ++ [DriverCall.Connect conn.Context opts]
          match drv.Connect s.trace conn.Context opts with
          | .error err =>
            .ok ({ s with trace := t1, m := { s.m with client := none } }, some err)
          | .ok client =>
            let t2 := t1 ++ [DriverCall.Ping client conn.Context readPref]
            match drv.Ping t1 client conn.Context readPref with
            | some err =>
              .ok ({ s with trace := t2, m := { s.m with client := some client } }, some err)
            | none =>
              let database := drv.Database t2 client dsn.Database
              .ok ({ s with
                      trace := t2 ++ [DriverCall.Database client dsn.Database],
                      m := { s.m with
                              client := some client,
                              collections := some [],
                              database := some database } }, none)

/-- The method `(m *Mongodb) Open(conn *Options)`: stores the pointer, then opens. -/
def Mongodb.Open (drv : Driver) (s : State) (conn : Option Options) :
    Except Panic (State × Option Error) :=
  Mongodb.open drv { s with m := { s.m with conn := conn } }

/-- The method `(m *Mongodb) Close()`. -/
def Mongodb.Close (drv : Driver) (s : State) : Except Panic (State × Option Error) :=
  match s.m.client with
  | some client =>
    match s.m.conn with
    | none => .error .nilDereference
    | some conn =>
      .ok ({ s with trace := s.trace ++ [DriverCall.Disconnect client conn.Context] },
           drv.Disconnect s.trace client conn.Context)
  | none => .ok (s, some Error.ErrorSessionNotInit)

/-- The method `(m *Mongodb) Ping(ctx)`. -/
def Mongodb.Ping (drv : Driver) (s : State) (ctx : Option GoContext) :
    Except Panic (State × Option Error) :=
  match s.m.client with
  | none => .ok (s, some Error.ErrorSessionNotInit)
  | some client =>
    let ctx1 : Except Panic (Option GoContext) :=
      match ctx with
      | some c => .ok (some c)
      | none =>
        match s.m.conn with
        | none => .error .nilDereference
        | some conn => .ok conn.Context
    match ctx1 with
    | .error p => .error p
    | .ok ctx2 =>
      .ok ({ s with trace := s.trace ++ [DriverCall.Ping client ctx2 drv.Primary] },
           drv.Ping s.trace client ctx2 drv.Primary)

/-- The method `(m *Mongodb) Drop()`: no guard; `m.conn.Context` faults on a nil
configuration and the driver's `Drop` faults on a nil database receiver. -/
def Mongodb.Drop (drv : Driver) (s : State) : Except Panic (State × Option Error) :=
  match s.m.conn with
  | none => .error .nilDereference
  | some conn =>
    match s.m.database with
    | none => .error .nilDereference
    | some db =>
      .ok ({ s with trace := s.trace ++ [DriverCall.Drop db conn.Context] },
           drv.Drop s.trace db conn.Context)

/-- The read `col, ok := m.collections[name]`; reading a nil map finds nothing. -/
def Mongodb.cached (m : Mongodb) (name : String) : Option Nat :=
  match m.collections with
  | none => none
  | some c => c.lookup name

/-- The method `(m *Mongodb) Collection(name)`, returning the address of the
wrapper.  On a miss the driver resolves the collection (faulting on a nil
database receiver), a wrapper is allocated at the next free address, and the
map is written (faulting on a nil map). -/
def Mongodb.Collection (drv : Driver) (s : State) (name : String) :
    Except Panic (State × Nat) :=
  match s.m.cached name with
  | some col => .ok (s, col)
  | none =>
    match s.m.database with
    | none => .error .nilDereference
    | some db =>
      let handle := drv.Collection s.trace db name
      let col := s.heap.length
      match s.m.collections with
      | none => .error .nilMapWrite
      | some c =>
        .ok ({ s with
                trace := s.trace ++ [DriverCall.Collection db name],
                heap := s.heap ++ [{ collection := handle }],
                m := { s.m with collections := some ((name, col) :: c) } }, col)

/-- The settings `New` hands to `Open`: the defaults, overridden by the
accumulated options. -/
def New.conn (options : List ConfigOption) : Options :=
  let ctx := GoContext.WithTimeout GoContext.Background DefaultContextTimeout
  let opts : Options :=
    options.foldl (fun o opt => opt o) { Dsn := "", Mode := "", ModeOpts := none, Context := none }
  let conn : Options := { Dsn := "", Mode := DefaultMode, ModeOpts := none, Context := some ctx }
  let conn := if opts.Dsn != "" then { conn with Dsn := opts.Dsn } else conn
  let conn := if opts.Mode != "" then { conn with Mode := opts.Mode } else conn
  let conn := if opts.Context != none then { conn with Context := opts.Context } else conn
  { conn with ModeOpts := opts.ModeOpts }

/-- The function `New(options...)`: the returned `Database` is nil (`none`) or
the freshly created manager. -/
def New (drv : Driver) (w : World) (options : List ConfigOption) :
    Except Panic (World × Option Mongodb × Option Error) :=
  let db : State := { w with m := Mongodb.zero }
  match Mongodb.Open drv db (some (New.conn options)) with
  | .error p => .error p
  | .ok (s, some err) => .ok (s.toWorld, none, some err)
  | .ok (s, none) => .ok (s.toWorld, some s.m, none)

/-! ## Sequences of calls on one manager -/

/-- A call of one of the five methods of a manager. -/
inductive Call where
  | Open (conn : Option Options)
  | Close
  | Ping (ctx : Option GoContext)
  | Drop
  | Collection (name : String)
  deriving DecidableEq, Repr

/-- What a call returned: an `error` (nil is `none`) or a wrapper address. -/
inductive Ret where
  | err (e : Option Error)
  | col (addr : Nat)
  deriving DecidableEq, Repr

/-- Perform one call. -/
def Mongodb.call (drv : Driver) (s : State) : Call → Except Panic (State × Ret)
  | .Open conn => (Mongodb.Open drv s conn).map fun r => (r.1, Ret.err r.2)
  | .Close => (Mongodb.Close drv s).map fun r => (r.1, Ret.err r.2)
  | .Ping ctx => (Mongodb.Ping drv s ctx).map fun r => (r.1, Ret.err r.2)
  | .Drop => (Mongodb.Drop drv s).map fun r => (r.1, Ret.err r.2)
  | .Collection name => (Mongodb.Collection drv s name).map fun r => (r.1, Ret.col r.2)

/-- Perform the calls in order, stopping at the first fault; the result lists
each call with what it returned. -/
def Mongodb.run (drv : Driver) (s : State) : List Call → Except Panic (State × List (Call × Ret))
  | [] => .ok (s, [])
  | c :: cs =>
    match Mongodb.call drv s c with
    | .error p => .error p
    | .ok (s1, r) =>
      match Mongodb.run drv s1 cs with
      | .error p => .error p
      | .ok (s2, rs) => .ok (s2, (c, r) :: rs)

/-- Look the names up in order, stopping at the first fault. -/
def Mongodb.Collections (drv : Driver) (s : State) : List String → Except Panic (State × List Nat)
  | [] => .ok (s, [])
  | n :: ns =>
    match Mongodb.Collection drv s n with
    | .error p => .error p
    | .ok (s1, a) =>
      match Mongodb.Collections drv s1 ns with
      | .error p => .error p
      | .ok (s2, as) => .ok (s2, a :: as)

/-! ## collection.go: operations -/

/-- The method `(m *Collection) Aggregate`: a nil interface with the driver's
error, else a freshly allocated `Cursor` around the driver's cursor. -/
def Collection.Aggregate (drv : Driver) (w : World) (m : Collection) (ctx : Option GoContext)
    (pipeline : Value) (opts : Opts) : World × Option Nat × Option Error :=
  let r := drv.Aggregate w.trace m.collection ctx pipeline opts
  let w1 : World :=
    { w with trace := w.trace ++ [DriverCall.Aggregate m.collection ctx pipeline opts] }
  match r.2 with
  | some err => (w1, none, some err)
  | none => ({ w1 with cursors := w1.cursors ++ [{ cursor := r.1 }] }, some w1.cursors.length, none)

/-- The method `(m *Collection) Find`. -/
def Collection.Find (drv : Driver) (w : World) (m : Collection) (ctx : Option GoContext)
    (filter : Value) (opts : Opts) : World × Option Nat × Option Error :=
  let r := drv.Find w.trace m.collection ctx filter opts
  let w1 : World :=
    { w with trace := w.trace ++ [DriverCall.Find m.collection ctx filter opts] }
  match r.2 with
  | some err => (w1, none, some err)
  | none => ({ w1 with cursors := w1.cursors ++ [{ cursor := r.1 }] }, some w1.cursors.length, none)

/-- The method `(m *Collection) CountDocuments`. -/
def Collection.CountDocuments (drv : Driver) (w : World) (m : Collection)
    (ctx : Option GoContext) (filter : Value) (opts : Opts) : World × Int × Option Error :=
  ({ w with trace := w.trace ++ [DriverCall.CountDocuments m.collection ctx filter opts] },
   drv.CountDocuments w.trace m.collection ctx filter opts)

/-- The method `(m *Collection) DeleteMany`. -/
def Collection.DeleteMany (drv : Driver) (w : World) (m : Collection)
    (ctx : Option GoContext) (filter : Value) (opts : Opts) :
    World × Option ResultRef × Option Error :=
  ({ w with trace := w.trace ++ [DriverCall.DeleteMany m.collection ctx filter opts] },
   drv.DeleteMany w.trace m.collection ctx filter opts)

/-- The method `(m *Collection) DeleteOne`. -/
def Collection.DeleteOne (drv : Driver) (w : World) (m : Collection)
    (ctx : Option GoContext) (filter : Value) (opts : Opts) :
    World × Option ResultRef × Option Error :=
  ({ w with trace := w.trace ++ [DriverCall.DeleteOne m.collection ctx filter opts] },
   drv.DeleteOne w.trace m.collection ctx filter opts)

/-- The method `(m *Collection) Distinct`. -/
def Collection.Distinct (drv : Driver) (w : World) (m : Collection)
    (ctx : Option GoContext) (fieldName : String) (filter : Value) (opts : Opts) :
    World × Option (List Value) × Option Error :=
  ({ w with trace := w.trace ++ [DriverCall.Distinct m.collection ctx fieldName filter opts] },
   drv.Distinct w.trace m.collection ctx fieldName filter opts)

/-- The method `(m *Collection) InsertMany`. -/
def Collection.InsertMany (drv : Driver) (w : World) (m : Collection)
    (ctx : Option GoContext) (documents : List Value) (opts : Opts) :
    World × Option ResultRef × Option Error :=
  ({ w with trace := w.trace ++ [DriverCall.InsertMany m.collection ctx documents opts] },
   drv.InsertMany w.trace m.collection ctx documents opts)

/-- The method `(m *Collection) InsertOne`. -/
def Collection.InsertOne (drv : Driver) (w : World) (m : Collection)
    (ctx : Option GoContext) (document : Value) (opts : Opts) :
    World × Option ResultRef × Option Error :=
  ({ w with trace := w.trace ++ [DriverCall.InsertOne m.collection ctx document opts] },
   drv.InsertOne w.trace m.collection ctx document opts)

/-- The method `(m *Collection) ReplaceOne`. -/
def Collection.ReplaceOne (drv : Driver) (w : World) (m : Collection)
    (ctx : Option GoContext) (filter : Value) (replacement : Value) (opts : Opts) :
    World × Option ResultRef × Option Error :=
  ({ w with
      trace := w.trace ++ [DriverCall.ReplaceOne m.collection ctx filter replacement opts] },
   drv.ReplaceOne w.trace m.collection ctx filter replacement opts)

/-- The method `(m *Collection) UpdateMany`. -/
def Collection.UpdateMany (drv : Driver) (w : World) (m : Collection)
    (ctx : Option GoContext) (filter : Value) (update : Value) (opts : Opts) :
    World × Option ResultRef × Option Error :=
  ({ w with trace := w.trace ++ [DriverCall.UpdateMany m.collection ctx filter update opts] },
   drv.UpdateMany w.trace m.collection ctx filter update opts)

/-- The method `(m *Collection) UpdateOne`. -/
def Collection.UpdateOne (drv : Driver) (w : World) (m : Collection)
    (ctx : Option GoContext) (filter : Value) (update : Value) (opts : Opts) :
    World × Option ResultRef × Option Error :=
  ({ w with trace := w.trace ++ [DriverCall.UpdateOne m.collection ctx filter update opts] },
   drv.UpdateOne w.trace m.collection ctx filter update opts)

/-- The method `(m *Collection) BulkWrite`. -/
def Collection.BulkWrite (drv : Driver) (w : World) (m : Collection)
    (ctx : Option GoContext) (models : List Value) (opts : Opts) :
    World × Option ResultRef × Option Error :=
  ({ w with trace := w.trace ++ [DriverCall.BulkWrite m.collection ctx models opts] },
   drv.BulkWrite w.trace m.collection ctx models opts)

/-- The method `(m *Collection) Indexes`. -/
def Collection.Indexes (drv : Driver) (w : World) (m : Collection) : World × ResultRef :=
  ({ w with trace := w.trace ++ [DriverCall.Indexes m.collection] },
   drv.Indexes w.trace m.collection)

/-! ## cursor.go: operations -/

/-- The method `(m *Cursor) Next(ctx)`: the driver cursor's `Next`, which
faults on a nil cursor. -/
def Cursor.Next (drv : Driver) (w : World) (m : Cursor) (ctx : Option GoContext) :
    Except Panic (World × Bool) :=
  match m.cursor with
  | none => .error .nilDereference
  | some cur =>
    .ok ({ w with trace := w.trace ++ [DriverCall.CursorNext cur ctx] },
         drv.CursorNext w.trace cur ctx)

/-- The method `(m *Cursor) TryNext(ctx)`: its body is `m.cursor.Next(ctx)`. -/
def Cursor.TryNext (drv : Driver) (w : World) (m : Cursor) (ctx : Option GoContext) :
    Except Panic (World × Bool) :=
  match m.cursor with
  | none => .error .nilDereference
  | some cur =>
    .ok ({ w with trace := w.trace ++ [DriverCall.CursorNext cur ctx] },
         drv.CursorNext w.trace cur ctx)

/-! ## database.go: `Collection` statement by statement, for concurrent callers

The body of `Collection` accesses the manager only between `m.mx.Lock()` and
`m.mx.Unlock()`, so its executions are free of data races and every execution
is an interleaving of the statements of the callers.  The mutex is a boolean:
`Lock` can only be taken by a caller when it is false, and a caller that
cannot take it waits. -/

/-- Where a caller of `Collection(name)` stands: before `Lock`; holding the
lock before the map read; after a miss, before the wrapper is built; with the
wrapper built, before the map write; with `col` known, before `Unlock`; and
returned with `col`. -/
inductive Pc where
  | start
  | locked
  | missed
  | created (col : Nat)
  | found (col : Nat)
  | returned (col : Nat)
  deriving DecidableEq, Repr

/-- The callers that are between `Lock` and `Unlock`. -/
def Pc.holdsLock : Pc → Bool
  | .locked => true
  | .missed => true
  | .created _ => true
  | .found _ => true
  | _ => false

/-- One manager with its mutex and the callers that are executing
`Collection(name)` on it. -/
structure Concurrent where
  s : State
  mx : Bool
  pcs : List Pc
  deriving DecidableEq, Repr

/-- Caller `i` executes its next statement.  A caller that waits for the lock,
has returned, or does not exist leaves everything as it is. -/
def Concurrent.step (drv : Driver) (name : String) (c : Concurrent) (i : Nat) :
    Except Panic Concurrent :=
  match c.pcs[i]? with
  | none => .ok c
  | some .start =>
    if c.mx then .ok c else .ok { c with mx := true, pcs := c.pcs.set i .locked }
  | some .locked =>
    match c.s.m.cached name with
    | some col => .ok { c with pcs := c.pcs.set i (.found col) }
    | none => .ok { c with pcs := c.pcs.set i .missed }
  | some .missed =>
    match c.s.m.database with
    | none => .error .nilDereference
    | some db =>
      .ok { c with
              s := { c.s with
                      trace := c.s.trace ++ [DriverCall.Collection db name],
                      heap := c.s.heap ++ [{ collection := drv.Collection c.s.trace db name }] },
              pcs := c.pcs.set i (.created c.s.heap.length) }
  | some (.created col) =>
    match c.s.m.collections with
    | none => .error .nilMapWrite
    | some cm =>
      .ok { c with
              s := { c.s with m := { c.s.m with collections := some ((name, col) :: cm) } },
              pcs := c.pcs.set i (.found col) }
  | some (.found col) => .ok { c with mx := false, pcs := c.pcs.set i (.returned col) }
  | some (.returned _) => .ok c

/-- An interleaving: the callers named by the schedule take one step each, in
that order, stopping at the first fault. -/
def Concurrent.run (drv : Driver) (name : String) (c : Concurrent) :
    List Nat → Except Panic Concurrent
  | [] => .ok c
  | i :: rest =>
    match Concurrent.step drv name c i with
    | .error p => .error p
    | .ok c1 => Concurrent.run drv name c1 rest

/-- The start of `k` concurrent lookups on the manager state `s`. -/
def Concurrent.init (s : State) (k : Nat) : Concurrent :=
  { s := s, mx := false, pcs := List.replicate k Pc.start }

/-! ## Specification vocabulary -/

/-- A manager on which `Open` has succeeded: the state right after an `Open`
that returned a nil error, or any state reached from such a state by further
calls that did not fault. -/
inductive Opened (drv : Driver) : State → Prop where
  | afterOpen {s s1 : State} {conn : Option Options} :
      Mongodb.Open drv s conn = .ok (s1, none) → Opened drv s1
  | afterCall {s s1 : State} {c : Call} {r : Ret} :
      Opened drv s → Mongodb.call drv s c = .ok (s1, r) → Opened drv s1

/-- A driver for concrete runs: it accepts one connection string, the mode
`primary` and an absent or empty option list; every network call succeeds and
handles are numbered by the length of the history. -/
def demoDriver : Driver where
  dsnParserNew := fun dsn =>
    if dsn = "mongodb://localhost:27017/test" then .ok { Database := "test" }
    else .error (Error.driver 1)
  ModeFromString := fun mode =>
    if mode = "primary" then .ok { id := 1 } else .error (Error.driver 2)
  readprefNew := fun mode opts =>
    match opts with
    | none => .ok { id := mode.id }
    | some [] => .ok { id := mode.id }
    | some (_ :: _) => .error (Error.driver 3)
  Primary := { id := 1 }
  Connect := fun hist _ _ => .ok { id := hist.length }
  Ping := fun _ _ _ _ => none
  Disconnect := fun _ _ _ => none
  Database := fun hist _ _ => { id := hist.length }
  Drop := fun _ _ _ => none
  Collection := fun hist _ _ => { id := hist.length }
  Aggregate := fun hist _ _ pipeline _ =>
    if pipeline.id = 0 then (none, some (Error.driver 40324)) else (some { id := hist.length }, none)
  CountDocuments := fun hist _ _ _ _ => (hist.length, none)
  DeleteMany := fun hist _ _ _ _ => (some { id := hist.length }, none)
  DeleteOne := fun hist _ _ _ _ => (some { id := hist.length }, none)
  Distinct := fun _ _ _ _ filter _ => (some [filter], none)
  Find := fun hist _ _ filter _ =>
    if filter.id = 0 then (none, some (Error.driver 2)) else (some { id := hist.length }, none)
  InsertMany := fun hist _ _ _ _ => (some { id := hist.length }, none)
  InsertOne := fun hist _ _ _ _ => (some { id := hist.length }, none)
  ReplaceOne := fun hist _ _ _ _ _ => (some { id := hist.length }, none)
  UpdateMany := fun hist _ _ _ _ _ => (some { id := hist.length }, none)
  UpdateOne := fun hist _ _ _ _ _ => (some { id := hist.length }, none)
  BulkWrite := fun hist _ _ _ _ => (some { id := hist.length }, none)
  Indexes := fun hist _ => { id := hist.length }
  CursorNext := fun hist cur _ => !(hist.contains (DriverCall.CursorNext cur none))
  CursorTryNext := fun _ _ _ => false

/-- The driver `demoDriver` with a server that accepts connections and then
fails every ping. -/
def unreachableDriver : Driver :=
  { demoDriver with Ping := fun _ _ _ _ => some (Error.driver 7) }

/-- An empty world. -/
def World.empty : World := { heap := [], cursors := [], trace := [] }

/-- A zero-value manager in a given world. -/
def State.new (w : World) : State := { w with m := Mongodb.zero }

/-- A configuration that `demoDriver` accepts. -/
def demoConn : Options :=
  { Dsn := "mongodb://localhost:27017/test", Mode := "primary", ModeOpts := none,
    Context := some (GoContext.user 0) }

/-- The state after `Open(demoConn)` succeeded on a zero-value manager against
`demoDriver`. -/
def demoOpened : State :=
  { heap := [], cursors := [],
    trace := [DriverCall.Connect (some (GoContext.user 0))
                { uri := "mongodb://localhost:27017/test", readPreference := { id := 1 } },
              DriverCall.Ping { id := 0 } (some (GoContext.user 0)) { id := 1 },
              DriverCall.Database { id := 0 } "test"],
    m := { name := "", conn := some demoConn, client := some { id := 0 },
           database := some { id := 2 }, collections := some [] } }

/-- A configuration whose connection string `demoDriver` rejects. -/
def badDsnConn : Options :=
  { Dsn := "://localhost:27017/", Mode := "primary", ModeOpts := none,
    Context := some (GoContext.user 0) }

/-- A configuration whose mode name `demoDriver` rejects. -/
def badModeConn : Options :=
  { Dsn := "mongodb://localhost:27017/test", Mode := "unknown", ModeOpts := none,
    Context := some (GoContext.user 0) }

/-- A wrapper call forwards once: the world gains exactly the one driver call
`call`, no wrapper is allocated, and the value returned is `answer`. -/
def ForwardsOnce {ρ : Type} (w : World) (out : World × ρ) (call : DriverCall) (answer : ρ) :
    Prop :=
  out.1.trace = w.trace ++ [call] ∧ out.1.heap = w.heap ∧ out.1.cursors = w.cursors ∧
    out.2 = answer

/-- A wrapper around a driver collection, for concrete runs. -/
def demoCollection : Collection := { collection := { id := 3 } }

/-! ### The settings `New` builds, in the words of the specification -/

/-- An option built by one of the four constructors of options.go. -/
inductive SuppliedOption where
  | Dsn (dsn : String)
  | Mode (mode : String)
  | ModeOpts (val : Option (List ReadprefOption))
  | Context (ctx : Option GoContext)
  deriving DecidableEq, Repr

/-- The closure a supplied option stands for. -/
def SuppliedOption.toOption : SuppliedOption → ConfigOption
  | .Dsn dsn => MgoWrapper.Dsn dsn
  | .Mode mode => MgoWrapper.Mode mode
  | .ModeOpts val => MgoWrapper.ModeOpts val
  | .Context ctx => MgoWrapper.Context ctx

/-- The value of the last `Dsn` option of the list, if there is one. -/
def lastDsn : List SuppliedOption → Option String
  | [] => none
  | o :: rest =>
    match lastDsn rest with
    | some v => some v
    | none => match o with
      | .Dsn v => some v
      | _ => none

/-- The value of the last `Mode` option of the list, if there is one. -/
def lastMode : List SuppliedOption → Option String
  | [] => none
  | o :: rest =>
    match lastMode rest with
    | some v => some v
    | none => match o with
      | .Mode v => some v
      | _ => none

/-- The value of the last `ModeOpts` option of the list, if there is one. -/
def lastModeOpts : List SuppliedOption → Option (Option (List ReadprefOption))
  | [] => none
  | o :: rest =>
    match lastModeOpts rest with
    | some v => some v
    | none => match o with
      | .ModeOpts v => some v
      | _ => none

/-- The value of the last `Context` option of the list, if there is one. -/
def lastContext : List SuppliedOption → Option (Option GoContext)
  | [] => none
  | o :: rest =>
    match lastContext rest with
    | some v => some v
    | none => match o with
      | .Context v => some v
      | _ => none

/-- The settings as the specification words them: the defaults (empty `Dsn`,
mode `primary`, a context with a five-second timeout), where `Dsn` and `Mode`
take the last supplied value when it is not empty, `Context` the last supplied
value when it is not nil, and `ModeOpts` the last supplied value, nil when
none was supplied. -/
def specConn (l : List SuppliedOption) : Options :=
  { Dsn := match lastDsn l with
      | some v => if v = "" then "" else v
      | none => ""
    Mode := match lastMode l with
      | some v => if v = "" then "primary" else v
      | none => "primary"
    ModeOpts := match lastModeOpts l with
      | some v => v
      | none => none
    Context := match lastContext l with
      | some (some c) => some c
      | _ => some (GoContext.WithTimeout GoContext.Background (5 * 1000000000)) }

/-! ### What holds at every point of concurrent first lookups of one name -/

/-- The facts kept by every step of concurrent lookups of `name`, started on a
manager state with heap `h0`, trace `t0` and database `d` in which `name` was
not cached: at most one caller is between `Lock` and `Unlock`, none when the
mutex is free, and the run is in one of three phases: nothing created yet;
the wrapper created by the one caller that holds the lock but not yet stored;
the wrapper stored at address `h0.length`. -/
structure Concurrent.Inv (drv : Driver) (name : String) (h0 : List Collection)
    (t0 : List DriverCall) (d : DatabaseHandle) (c : Concurrent) : Prop where
  db : c.s.m.database = some d
  map : ∃ cm, c.s.m.collections = some cm
  excl : ∀ (i j : Nat) (pi pj : Pc), c.pcs[i]? = some pi → c.pcs[j]? = some pj →
    pi.holdsLock = true → pj.holdsLock = true → i = j
  free : c.mx = false → ∀ (i : Nat) (pi : Pc), c.pcs[i]? = some pi → pi.holdsLock = false
  phase :
    (c.s.m.cached name = none ∧ c.s.heap = h0 ∧ c.s.trace = t0 ∧
      ∀ (i : Nat) (pi : Pc), c.pcs[i]? = some pi → pi = Pc.start ∨ pi = Pc.locked ∨ pi = Pc.missed) ∨
    (c.s.m.cached name = none ∧ c.mx = true ∧
      c.s.heap = h0 ++ [{ collection := drv.Collection t0 d name }] ∧
      c.s.trace = t0 ++ [DriverCall.Collection d name] ∧
      ∀ (i : Nat) (pi : Pc), c.pcs[i]? = some pi → pi = Pc.start ∨ pi = Pc.created h0.length) ∨
    (c.s.m.cached name = some h0.length ∧
      c.s.heap = h0 ++ [{ collection := drv.Collection t0 d name }] ∧
      c.s.trace = t0 ++ [DriverCall.Collection d name] ∧
      ∀ (i : Nat) (pi : Pc), c.pcs[i]? = some pi →
        pi = Pc.start ∨ pi = Pc.locked ∨ pi = Pc.found h0.length ∨
          pi = Pc.returned h0.length)

/-- The statements a caller still has to execute at most before it returns. -/
def Pc.remaining : Pc → Nat
  | .start => 5
  | .locked => 4
  | .missed => 3
  | .created _ => 2
  | .found _ => 1
  | .returned _ => 0

/-- The statements all callers together still have to execute at most. -/
def Concurrent.remaining (c : Concurrent) : Nat := (c.pcs.map Pc.remaining).sum

/-- A mutex that is taken is held by a caller between `Lock` and `Unlock`. -/
def Concurrent.Held (c : Concurrent) : Prop :=
  c.mx = true → ∃ (i : Nat) (pi : Pc), c.pcs[i]? = some pi ∧ pi.holdsLock = true

/-! ## Theorems -/

theorem demoOpen_eq :
    Mongodb.Open demoDriver (State.new World.empty) (some demoConn) = .ok (demoOpened, none) := by
  rfl

/-! ### The collection cache -/

theorem Collection_hit (drv : Driver) (s : State) (n : String) (p : Nat)
    (h : s.m.cached n = some p) : Mongodb.Collection drv s n = .ok (s, p) := by
  simp [Mongodb.Collection, h]

theorem Collection_miss (drv : Driver) (s : State) (n : String) (d : DatabaseHandle)
    (c : List (String × Nat)) (h : s.m.cached n = none) (hd : s.m.database = some d)
    (hc : s.m.collections = some c) :
    Mongodb.Collection drv s n =
      .ok ({ s with
              trace := s.trace ++ [DriverCall.Collection d n],
              heap := s.heap ++ [{ collection := drv.Collection s.trace d n }],
              m := { s.m with collections := some ((n, s.heap.length) :: c) } },
           s.heap.length) := by
  simp [Mongodb.Collection, h, hd, hc]

theorem lookup_cons_eq (k n : String) (p : Nat) (c : List (String × Nat)) :
    List.lookup k ((n, p) :: c) = if k = n then some p else List.lookup k c := by
  by_cases hk : k = n
  · subst hk
    simp [List.lookup]
  · have hb : (k == n) = false := by simpa using hk
    simp [List.lookup, hb, hk]

theorem cached_eq (m : Mongodb) (c : List (String × Nat)) (h : m.collections = some c)
    (k : String) : m.cached k = c.lookup k := by
  simp [Mongodb.cached, h]

/-- One lookup on a manager with a database reference and a cache map: it
returns, keeps the database reference and a cache map, caches the name at the
returned address, keeps every other entry, and only extends the heap. -/
theorem Collection_step (drv : Driver) (s : State) (n : String) (d : DatabaseHandle)
    (c : List (String × Nat)) (hd : s.m.database = some d) (hc : s.m.collections = some c) :
    ∃ s1 p, Mongodb.Collection drv s n = .ok (s1, p) ∧ s1.m.database = some d ∧
      (∃ c1, s1.m.collections = some c1) ∧ s1.m.cached n = some p ∧
      (∀ k, k ≠ n → s1.m.cached k = s.m.cached k) ∧
      (∀ k q, s.m.cached k = some q → s1.m.cached k = some q) ∧
      (∃ t, s1.heap = s.heap ++ t) := by
  cases h : s.m.cached n with
  | some p =>
    exact ⟨s, p, Collection_hit drv s n p h, hd, ⟨c, hc⟩, h, fun _ _ => rfl,
      fun _ _ hq => hq, ⟨[], by simp⟩⟩
  | none =>
    refine ⟨_, _, Collection_miss drv s n d c h hd hc, hd, ⟨_, rfl⟩, ?_, ?_, ?_, ⟨_, rfl⟩⟩
    · rw [cached_eq _ _ rfl, lookup_cons_eq, if_pos rfl]
    · intro k hk
      rw [cached_eq _ _ rfl, lookup_cons_eq, if_neg hk, cached_eq _ _ hc]
    · intro k q hq
      by_cases hk : k = n
      · subst hk
        rw [h] at hq
        cases hq
      · rw [cached_eq _ _ rfl, lookup_cons_eq, if_neg hk, ← cached_eq _ _ hc]
        exact hq

/-- A sequence of lookups on a manager with a database reference and a cache
map: it returns one address per name, keeps every entry it found, caches every
requested name, and only extends the heap. -/
theorem Collections_run (drv : Driver) (ns : List String) :
    ∀ (s : State) (d : DatabaseHandle) (c : List (String × Nat)),
      s.m.database = some d → s.m.collections = some c →
      ∃ s1 ps, Mongodb.Collections drv s ns = .ok (s1, ps) ∧ ps.length = ns.length ∧
        s1.m.database = some d ∧ (∃ c1, s1.m.collections = some c1) ∧
        (∀ k, k ∉ ns → s1.m.cached k = s.m.cached k) ∧
        (∀ k q, s.m.cached k = some q → s1.m.cached k = some q) ∧
        (∀ k, k ∈ ns → ∃ q, s1.m.cached k = some q) ∧
        (∃ t, s1.heap = s.heap ++ t) := by
  induction ns with
  | nil =>
    intro s d c hd hc
    exact ⟨s, [], rfl, rfl, hd, ⟨c, hc⟩, fun _ _ => rfl, fun _ _ h => h,
      (fun k hk => by cases hk), ⟨[], by simp⟩⟩
  | cons n ns ih =>
    intro s d c hd hc
    obtain ⟨s1, p, h1, hd1, ⟨c1, hc1⟩, hn1, hother1, hkeep1, ⟨t1, ht1⟩⟩ :=
      Collection_step drv s n d c hd hc
    obtain ⟨s2, ps, h2, hlen, hd2, hc2, hother2, hkeep2, hall2, ⟨t2, ht2⟩⟩ :=
      ih s1 d c1 hd1 hc1
    refine ⟨s2, p :: ps, ?_, by simp [hlen], hd2, hc2, ?_, ?_, ?_, ⟨t1 ++ t2, ?_⟩⟩
    · simp [Mongodb.Collections, h1, h2]
    · intro k hk
      have hkn : k ≠ n := fun e => hk (by simp [e])
      have hkns : k ∉ ns := fun e => hk (by simp [e])
      rw [hother2 k hkns, hother1 k hkn]
    · intro k q hq
      exact hkeep2 k q (hkeep1 k q hq)
    · intro k hk
      rcases List.mem_cons.mp hk with e | e
      · subst e
        exact ⟨p, hkeep2 _ _ hn1⟩
      · exact hall2 k e
    · rw [ht2, ht1, List.append_assoc]

/-! ### Managers on which `Open` has succeeded -/

theorem open_success (drv : Driver) (s s1 : State) (h : Mongodb.open drv s = .ok (s1, none)) :
    (∃ d, s1.m.database = some d) ∧ s1.m.collections = some [] ∧
      (∃ cl, s1.m.client = some cl) ∧ s1.m.conn = s.m.conn ∧ (∃ cn, s.m.conn = some cn) ∧
      s1.heap = s.heap := by
  unfold Mongodb.open at h
  split at h
  · cases h
  · rename_i conn hconn
    split at h
    · cases h
    · split at h
      · cases h
      · split at h
        · cases h
        · simp only at h
          split at h
          · cases h
          · split at h
            · cases h
            · cases h
              exact ⟨⟨_, rfl⟩, rfl, ⟨_, rfl⟩, rfl, ⟨conn, hconn⟩, rfl⟩

/-- An `Open` that returned an error leaves the database reference, the cache
map and the heap as they were. -/
theorem open_failure (drv : Driver) (s s1 : State) (e : Error)
    (h : Mongodb.open drv s = .ok (s1, some e)) :
    s1.m.database = s.m.database ∧ s1.m.collections = s.m.collections ∧
      s1.m.conn = s.m.conn ∧ s1.heap = s.heap := by
  unfold Mongodb.open at h
  split at h
  · cases h
  · split at h
    · cases h
      exact ⟨rfl, rfl, rfl, rfl⟩
    · split at h
      · cases h
        exact ⟨rfl, rfl, rfl, rfl⟩
      · split at h
        · cases h
          exact ⟨rfl, rfl, rfl, rfl⟩
        · simp only at h
          split at h
          · cases h
            exact ⟨rfl, rfl, rfl, rfl⟩
          · split at h
            · cases h
              exact ⟨rfl, rfl, rfl, rfl⟩
            · cases h

theorem Open_ok_cases (drv : Driver) (s s1 : State) (conn : Option Options) (oe : Option Error)
    (h : Mongodb.Open drv s conn = .ok (s1, oe)) :
    (oe = none ∧ (∃ d, s1.m.database = some d) ∧ s1.m.collections = some []) ∨
    ((∃ e, oe = some e) ∧ s1.m.database = s.m.database ∧
      s1.m.collections = s.m.collections) := by
  unfold Mongodb.Open at h
  cases oe with
  | none =>
    obtain ⟨hd, hc, _⟩ := open_success drv _ s1 h
    exact Or.inl ⟨rfl, hd, hc⟩
  | some e =>
    obtain ⟨hd, hc, _⟩ := open_failure drv _ s1 e h
    exact Or.inr ⟨⟨e, rfl⟩, hd, hc⟩

theorem Close_keeps (drv : Driver) (s s1 : State) (oe : Option Error)
    (h : Mongodb.Close drv s = .ok (s1, oe)) : s1.m = s.m ∧ s1.heap = s.heap := by
  unfold Mongodb.Close at h
  split at h
  · split at h
    · cases h
    · cases h
      exact ⟨rfl, rfl⟩
  · cases h
    exact ⟨rfl, rfl⟩

theorem Ping_keeps (drv : Driver) (s s1 : State) (ctx : Option GoContext) (oe : Option Error)
    (h : Mongodb.Ping drv s ctx = .ok (s1, oe)) : s1.m = s.m ∧ s1.heap = s.heap := by
  unfold Mongodb.Ping at h
  split at h
  · cases h
    exact ⟨rfl, rfl⟩
  · simp only at h
    split at h
    · cases h
    · cases h
      exact ⟨rfl, rfl⟩

theorem Drop_keeps (drv : Driver) (s s1 : State) (oe : Option Error)
    (h : Mongodb.Drop drv s = .ok (s1, oe)) : s1.m = s.m ∧ s1.heap = s.heap := by
  unfold Mongodb.Drop at h
  split at h
  · cases h
  · split at h
    · cases h
    · cases h
      exact ⟨rfl, rfl⟩

theorem map_ok_inv {α β : Type} (x : Except Panic α) (f : α → β) (b : β)
    (h : x.map f = .ok b) : ∃ a, x = .ok a ∧ f a = b := by
  cases x with
  | error p => cases h
  | ok a =>
    cases h
    exact ⟨a, rfl, rfl⟩

/-- No call unsets the database reference or the cache map. -/
theorem call_keeps_opened (drv : Driver) (s s1 : State) (c : Call) (r : Ret)
    (hs : (∃ d, s.m.database = some d) ∧ ∃ cm, s.m.collections = some cm)
    (h : Mongodb.call drv s c = .ok (s1, r)) :
    (∃ d, s1.m.database = some d) ∧ ∃ cm, s1.m.collections = some cm := by
  obtain ⟨⟨d, hd⟩, ⟨cm, hc⟩⟩ := hs
  cases c with
  | Open conn =>
    obtain ⟨⟨s2, oe⟩, h2, he⟩ := map_ok_inv _ _ _ h
    cases he
    rcases Open_ok_cases drv s _ conn oe h2 with ⟨_, hd1, hc1⟩ | ⟨_, hd1, hc1⟩
    · exact ⟨hd1, ⟨[], hc1⟩⟩
    · exact ⟨⟨d, by rw [hd1, hd]⟩, ⟨cm, by rw [hc1, hc]⟩⟩
  | Close =>
    obtain ⟨⟨s2, oe⟩, h2, he⟩ := map_ok_inv _ _ _ h
    cases he
    obtain ⟨hm, _⟩ := Close_keeps drv s _ oe h2
    exact ⟨⟨d, by rw [hm, hd]⟩, ⟨cm, by rw [hm, hc]⟩⟩
  | Ping ctx =>
    obtain ⟨⟨s2, oe⟩, h2, he⟩ := map_ok_inv _ _ _ h
    cases he
    obtain ⟨hm, _⟩ := Ping_keeps drv s _ ctx oe h2
    exact ⟨⟨d, by rw [hm, hd]⟩, ⟨cm, by rw [hm, hc]⟩⟩
  | Drop =>
    obtain ⟨⟨s2, oe⟩, h2, he⟩ := map_ok_inv _ _ _ h
    cases he
    obtain ⟨hm, _⟩ := Drop_keeps drv s _ oe h2
    exact ⟨⟨d, by rw [hm, hd]⟩, ⟨cm, by rw [hm, hc]⟩⟩
  | Collection name =>
    obtain ⟨⟨s2, a⟩, h2, he⟩ := map_ok_inv _ _ _ h
    cases he
    obtain ⟨s3, p, h3, hd3, hc3, _⟩ := Collection_step drv s name d cm hd hc
    rw [h3] at h2
    cases h2
    exact ⟨⟨d, hd3⟩, hc3⟩

/-- A manager on which `Open` has succeeded holds a database reference and a
cache map. -/
theorem Opened_inv (drv : Driver) (s : State) (h : Opened drv s) :
    (∃ d, s.m.database = some d) ∧ ∃ cm, s.m.collections = some cm := by
  induction h with
  | afterOpen ho =>
    rcases Open_ok_cases drv _ _ _ _ ho with ⟨_, hd1, hc1⟩ | ⟨⟨e, he⟩, _⟩
    · exact ⟨hd1, ⟨[], hc1⟩⟩
    · cases he
  | afterCall _ hc ih => exact call_keeps_opened drv _ _ _ _ ih hc

/-- Claim C1. On a manager on which `Open` has succeeded, a lookup of a name,
then any sequence of lookups of any names, then a second lookup of the first
name all return, and the two lookups of that name return the same wrapper
address, whether or not the name was cached before. -/
theorem C1_repeated_lookup_same_wrapper (drv : Driver) (s : State) (hop : Opened drv s)
    (n : String) (ns : List String) :
    ∃ s1 s2 s3 p ps, Mongodb.Collection drv s n = .ok (s1, p) ∧
      Mongodb.Collections drv s1 ns = .ok (s2, ps) ∧
      Mongodb.Collection drv s2 n = .ok (s3, p) := by
  obtain ⟨⟨d, hd⟩, ⟨cm, hc⟩⟩ := Opened_inv drv s hop
  obtain ⟨s1, p, h1, hd1, ⟨c1, hc1⟩, hn1, _⟩ := Collection_step drv s n d cm hd hc
  obtain ⟨s2, ps, h2, _, _, _, _, hkeep2, _⟩ := Collections_run drv ns s1 d c1 hd1 hc1
  exact ⟨s1, s2, s2, p, ps, h1, h2, Collection_hit drv s2 n p (hkeep2 n p hn1)⟩

theorem C1_repeated_lookup_same_wrapper_witness :
    Opened demoDriver demoOpened ∧
    ∃ s1 s2 s3 p ps, Mongodb.Collection demoDriver demoOpened "test" = .ok (s1, p) ∧
      Mongodb.Collections demoDriver s1 ["users", "test", "orders"] = .ok (s2, ps) ∧
      Mongodb.Collection demoDriver s2 "test" = .ok (s3, p) :=
  ⟨Opened.afterOpen demoOpen_eq,
   C1_repeated_lookup_same_wrapper demoDriver demoOpened (Opened.afterOpen demoOpen_eq) "test"
     ["users", "test", "orders"]⟩

/-! ### Which lookups reach the driver -/

theorem Collections_append (drv : Driver) (a b : List String) :
    ∀ (s s1 s2 : State) (ps1 ps2 : List Nat),
      Mongodb.Collections drv s a = .ok (s1, ps1) →
      Mongodb.Collections drv s1 b = .ok (s2, ps2) →
      Mongodb.Collections drv s (a ++ b) = .ok (s2, ps1 ++ ps2) := by
  induction a with
  | nil =>
    intro s s1 s2 ps1 ps2 h1 h2
    simp only [Mongodb.Collections] at h1
    cases h1
    simpa using h2
  | cons n a ih =>
    intro s s1 s2 ps1 ps2 h1 h2
    simp only [Mongodb.Collections] at h1
    split at h1
    · cases h1
    · rename_i s3 p h3
      split at h1
      · cases h1
      · rename_i s4 ps4 h4
        cases h1
        have h5 := ih s3 _ s2 _ ps2 h4 h2
        simp [Mongodb.Collections, h3, h5]

theorem Collections_single (drv : Driver) (s s1 : State) (n : String) (p : Nat)
    (h : Mongodb.Collection drv s n = .ok (s1, p)) :
    Mongodb.Collections drv s [n] = .ok (s1, [p]) := by
  simp [Mongodb.Collections, h]

theorem heap_grows (h h1 t : List Collection) (q : Nat) (x : Collection) (e : h1 = h ++ t)
    (hq : h[q]? = some x) : h1[q]? = some x := by
  obtain ⟨hlt, _⟩ := List.getElem?_eq_some.mp hq
  rw [e, List.getElem?_append_left hlt]
  exact hq

/-- The driver calls made by a sequence of lookups: one `Collection` call for
each distinct requested name that was not cached, and nothing else. -/
theorem Collections_trace (drv : Driver) (ns : List String) :
    ∀ (s : State) (d : DatabaseHandle) (c : List (String × Nat)),
      s.m.database = some d → s.m.collections = some c →
      ∃ (s1 : State) (ps : List Nat) (L : List String),
        Mongodb.Collections drv s ns = .ok (s1, ps) ∧ L.Nodup ∧
        (∀ n, n ∈ L ↔ n ∈ ns ∧ s.m.cached n = none) ∧
        s1.trace = s.trace ++ L.map (DriverCall.Collection d) := by
  induction ns with
  | nil =>
    intro s d c _ _
    exact ⟨s, [], [], rfl, List.nodup_nil, by simp, by simp⟩
  | cons n ns ih =>
    intro s d c hd hc
    cases h : s.m.cached n with
    | some p =>
      obtain ⟨s1, ps, L, h1, hnd, hmem, htr⟩ := ih s d c hd hc
      refine ⟨s1, p :: ps, L, ?_, hnd, ?_, htr⟩
      · simp [Mongodb.Collections, Collection_hit drv s n p h, h1]
      · intro k
        rw [hmem k]
        constructor
        · rintro ⟨hk, hn⟩
          exact ⟨List.mem_cons_of_mem _ hk, hn⟩
        · rintro ⟨hk, hn⟩
          rcases List.mem_cons.mp hk with e | e
          · subst e
            rw [h] at hn
            cases hn
          · exact ⟨e, hn⟩
    | none =>
      have hm := Collection_miss drv s n d c h hd hc
      obtain ⟨s1, ps, L, h1, hnd, hmem, htr⟩ :=
        ih { s with
              trace := s.trace ++ [DriverCall.Collection d n],
              heap := s.heap ++ [{ collection := drv.Collection s.trace d n }],
              m := { s.m with collections := some ((n, s.heap.length) :: c) } }
          d ((n, s.heap.length) :: c) hd rfl
      have hcached : ∀ k, Mongodb.cached
          { s.m with collections := some ((n, s.heap.length) :: c) } k =
          if k = n then some s.heap.length else s.m.cached k := by
        intro k
        rw [cached_eq _ _ rfl, lookup_cons_eq, cached_eq _ _ hc]
      have hnL : n ∉ L := by
        intro hin
        have := ((hmem n).mp hin).2
        rw [hcached n, if_pos rfl] at this
        cases this
      refine ⟨s1, s.heap.length :: ps, n :: L, ?_, List.nodup_cons.mpr ⟨hnL, hnd⟩, ?_, ?_⟩
      · simp [Mongodb.Collections, hm, h1]
      · intro k
        by_cases hk : k = n
        · subst hk
          simp [h]
        · have := hmem k
          rw [hcached k, if_neg hk] at this
          simp [hk, this]
      · rw [htr]
        simp

/-- After the lookups `pre` on a manager whose cache was empty, exactly the
names of `pre` are cached, and the wrapper cached for a name holds the handle
the driver returned at the first lookup of that name. -/
theorem Collections_history (drv : Driver) (s : State) (d : DatabaseHandle)
    (hd : s.m.database = some d) (hc : s.m.collections = some []) (pre : List String) :
    ∃ s1 ps, Mongodb.Collections drv s pre = .ok (s1, ps) ∧ ps.length = pre.length ∧
      s1.m.database = some d ∧ (∃ c1, s1.m.collections = some c1) ∧
      (∀ k, k ∉ pre → s1.m.cached k = none) ∧
      ∀ k, k ∈ pre → ∃ j sf pf q, j < pre.length ∧ pre[j]? = some k ∧ k ∉ pre.take j ∧
        Mongodb.Collections drv s (pre.take j) = .ok (sf, pf) ∧ s1.m.cached k = some q ∧
        s1.heap[q]? = some { collection := drv.Collection sf.trace d k } := by
  induction pre using List.reverseRecOn with
  | nil =>
    refine ⟨s, [], rfl, rfl, hd, ⟨[], hc⟩, ?_, ?_⟩
    · intro k _
      simp [Mongodb.cached, hc]
    · intro k hk
      cases hk
  | append_singleton pre n ih =>
    obtain ⟨s1, ps, h1, hlen, hd1, ⟨c1, hc1⟩, hout, hin⟩ := ih
    have old : ∀ (s2 : State) (t : List Collection), s2.heap = s1.heap ++ t →
        (∀ k q, s1.m.cached k = some q → s2.m.cached k = some q) →
        ∀ k, k ∈ pre → ∃ j sf pf q, j < (pre ++ [n]).length ∧ (pre ++ [n])[j]? = some k ∧
          k ∉ (pre ++ [n]).take j ∧
          Mongodb.Collections drv s ((pre ++ [n]).take j) = .ok (sf, pf) ∧
          s2.m.cached k = some q ∧
          s2.heap[q]? = some { collection := drv.Collection sf.trace d k } := by
      intro s2 t ht hkeep k hk
      obtain ⟨j, sf, pf, q, hj, hjk, hnot, hrun, hq, hheap⟩ := hin k hk
      have htake : (pre ++ [n]).take j = pre.take j :=
        List.take_append_of_le_length (Nat.le_of_lt hj)
      refine ⟨j, sf, pf, q, ?_, ?_, ?_, ?_, hkeep k q hq, heap_grows _ _ t q _ ht hheap⟩
      · simp only [List.length_append, List.length_singleton]
        omega
      · rw [List.getElem?_append_left hj]
        exact hjk
      · rw [htake]
        exact hnot
      · rw [htake]
        exact hrun
    by_cases hn : n ∈ pre
    · obtain ⟨_, _, _, q, _, _, _, _, hq, _⟩ := hin n hn
      have h2 := Collections_append drv pre [n] s s1 s1 ps [q] h1
        (Collections_single drv s1 s1 n q (Collection_hit drv s1 n q hq))
      refine ⟨s1, ps ++ [q], h2, by simp [hlen], hd1, ⟨c1, hc1⟩, ?_, ?_⟩
      · intro k hk
        exact hout k (fun e => hk (List.mem_append_left _ e))
      · intro k hk
        have hk1 : k ∈ pre := by
          rcases List.mem_append.mp hk with e | e
          · exact e
          · rw [List.mem_singleton] at e
            rw [e]
            exact hn
        exact old s1 [] (by simp) (fun _ _ h => h) k hk1
    · have hmiss := Collection_miss drv s1 n d c1 (hout n hn) hd1 hc1
      have h2 := Collections_append drv pre [n] s s1 _ ps [s1.heap.length] h1
        (Collections_single drv s1 _ n _ hmiss)
      have hcached : ∀ k, Mongodb.cached
          { s1.m with collections := some ((n, s1.heap.length) :: c1) } k =
          if k = n then some s1.heap.length else s1.m.cached k := by
        intro k
        rw [cached_eq _ _ rfl, lookup_cons_eq, cached_eq _ _ hc1]
      refine ⟨_, ps ++ [s1.heap.length], h2, by simp [hlen], hd1, ⟨_, rfl⟩, ?_, ?_⟩
      · intro k hk
        have hkn : k ≠ n := fun e => hk (by simp [e])
        have hkp : k ∉ pre := fun e => hk (List.mem_append_left _ e)
        show Mongodb.cached { s1.m with collections := some ((n, s1.heap.length) :: c1) } k = none
        rw [hcached k, if_neg hkn]
        exact hout k hkp
      · intro k hk
        by_cases hk1 : k ∈ pre
        · refine old _ [{ collection := drv.Collection s1.trace d n }] rfl ?_ k hk1
          intro k2 q2 hq2
          show Mongodb.cached
            { s1.m with collections := some ((n, s1.heap.length) :: c1) } k2 = some q2
          rw [hcached k2]
          by_cases e : k2 = n
          · subst e
            rw [hout k2 hn] at hq2
            cases hq2
          · rw [if_neg e]
            exact hq2
        · have hkn : k = n := by
            rcases List.mem_append.mp hk with e | e
            · exact absurd e hk1
            · simpa using e
          subst hkn
          refine ⟨pre.length, s1, ps, s1.heap.length, by simp, ?_, ?_, ?_, ?_, ?_⟩
          · exact List.getElem?_concat_length pre k
          · rw [List.take_left]
            exact hn
          · rw [List.take_left]
            exact h1
          · show Mongodb.cached
              { s1.m with collections := some ((k, s1.heap.length) :: c1) } k = _
            rw [hcached k, if_pos rfl]
          · show (s1.heap ++ [{ collection := drv.Collection s1.trace d k }])[s1.heap.length]? = _
            exact List.getElem?_concat_length _ _

theorem take_succ_getElem (ns : List String) (i : Nat) (hi : i < ns.length) :
    ns.take (i + 1) = ns.take i ++ [ns[i]] := by
  rw [List.take_succ, List.getElem?_eq_getElem hi]
  rfl

/-- Claim C2. On a manager on which `Open` has succeeded and whose cache is still
empty, let `ns` be the lookups made, in order.  All of them return.  The
driver calls they make are one `Collection(name)` call on the manager's
database per distinct name of `ns` and nothing else.  The lookup at position
`i` calls the driver exactly when its name does not occur earlier in `ns`, and
the wrapper it returns holds the handle the driver returned at the first
lookup `j` of that name, still so at the end of the run. -/
theorem C2_each_name_resolved_once (drv : Driver) (s : State) (hop : Opened drv s)
    (hfresh : s.m.collections = some []) (ns : List String) :
    ∃ (d : DatabaseHandle) (s2 : State) (ps : List Nat), s.m.database = some d ∧
      Mongodb.Collections drv s ns = .ok (s2, ps) ∧
      (∃ L : List String, L.Nodup ∧ (∀ n, n ∈ L ↔ n ∈ ns) ∧
        s2.trace = s.trace ++ L.map (DriverCall.Collection d)) ∧
      ∀ (i : Nat) (hi : i < ns.length), ∃ sa pa sb p,
        Mongodb.Collections drv s (ns.take i) = .ok (sa, pa) ∧
        Mongodb.Collection drv sa ns[i] = .ok (sb, p) ∧ ps[i]? = some p ∧
        sb.trace = (if ns[i] ∈ ns.take i then sa.trace
                    else sa.trace ++ [DriverCall.Collection d ns[i]]) ∧
        ∃ j sf pf, j ≤ i ∧ ns[j]? = some ns[i] ∧ ns[i] ∉ ns.take j ∧
          Mongodb.Collections drv s (ns.take j) = .ok (sf, pf) ∧
          sb.heap[p]? = some { collection := drv.Collection sf.trace d ns[i] } ∧
          s2.heap[p]? = some { collection := drv.Collection sf.trace d ns[i] } := by
  obtain ⟨⟨d, hd⟩, _⟩ := Opened_inv drv s hop
  obtain ⟨s2, ps, L, hrun, hnd, hmem, htr⟩ := Collections_trace drv ns s d [] hd hfresh
  refine ⟨d, s2, ps, hd, hrun, ⟨L, hnd, ?_, htr⟩, ?_⟩
  · intro n
    rw [hmem n]
    simp [Mongodb.cached, hfresh]
  · intro i hi
    obtain ⟨sa, pa, ha, hlena, hda, ⟨ca, hca⟩, houta, hina⟩ :=
      Collections_history drv s d hd hfresh (ns.take i)
    obtain ⟨sb, p, hb, hdb, ⟨cb, hcb⟩, hnb, _, _, _⟩ :=
      Collection_step drv sa ns[i] d ca hda hca
    have hab := Collections_append drv (ns.take i) [ns[i]] s sa sb pa [p] ha
      (Collections_single drv sa sb ns[i] p hb)
    rw [← take_succ_getElem ns i hi] at hab
    obtain ⟨sb1, pb1, hb1, _, _, _, _, hinb⟩ :=
      Collections_history drv s d hd hfresh (ns.take (i + 1))
    rw [hab] at hb1
    cases hb1
    have hmemi : ns[i] ∈ ns.take (i + 1) := by
      rw [take_succ_getElem ns i hi]
      exact List.mem_append_right _ (List.mem_singleton.mpr rfl)
    obtain ⟨j, sf, pf, q, hj, hjk, hnot, hrunj, hq, hheap⟩ := hinb ns[i] hmemi
    have hji : j ≤ i := by
      rw [List.length_take] at hj
      omega
    have hqp : p = q := by
      rw [hq] at hnb
      cases hnb
      rfl
    subst hqp
    have htake : (ns.take (i + 1)).take j = ns.take j := by
      rw [List.take_take]
      congr 1
      omega
    rw [htake] at hnot hrunj
    have hjk2 : ns[j]? = some ns[i] := by
      rw [List.getElem?_take] at hjk
      rw [if_pos (by omega)] at hjk
      exact hjk
    obtain ⟨s3, ps3, h3, _, _, _, _, _, _, ⟨t3, ht3⟩⟩ :=
      Collections_run drv (ns.drop (i + 1)) sb d cb hdb hcb
    have hall := Collections_append drv (ns.take (i + 1)) (ns.drop (i + 1)) s sb s3
      (pa ++ [p]) ps3 hab h3
    rw [List.take_append_drop, hrun] at hall
    cases hall
    have hlen : pa.length = i := by
      rw [hlena, List.length_take]
      omega
    refine ⟨sa, pa, sb, p, ha, hb, ?_, ?_, j, sf, pf, hji, hjk2, hnot, hrunj, hheap,
      heap_grows _ _ t3 p _ ht3 hheap⟩
    · rw [List.append_assoc, List.getElem?_append_right (by omega)]
      simp [hlen]
    · by_cases hprev : ns[i] ∈ ns.take i
      · rw [if_pos hprev]
        obtain ⟨_, _, _, q1, _, _, _, _, hq1, _⟩ := hina ns[i] hprev
        rw [Collection_hit drv sa ns[i] q1 hq1] at hb
        cases hb
        rfl
      · rw [if_neg hprev]
        rw [Collection_miss drv sa ns[i] d ca (houta _ hprev) hda hca] at hb
        cases hb
        rfl

theorem C2_each_name_resolved_once_witness :
    Opened demoDriver demoOpened ∧ demoOpened.m.collections = some [] ∧
    ∃ (d : DatabaseHandle) (s2 : State) (ps : List Nat), demoOpened.m.database = some d ∧
      Mongodb.Collections demoDriver demoOpened ["a", "b", "a"] = .ok (s2, ps) ∧
      (∃ L : List String, L.Nodup ∧ (∀ n, n ∈ L ↔ n ∈ ["a", "b", "a"]) ∧
        s2.trace = demoOpened.trace ++ L.map (DriverCall.Collection d)) ∧
      ∀ (i : Nat) (hi : i < ["a", "b", "a"].length), ∃ sa pa sb p,
        Mongodb.Collections demoDriver demoOpened (["a", "b", "a"].take i) = .ok (sa, pa) ∧
        Mongodb.Collection demoDriver sa ["a", "b", "a"][i] = .ok (sb, p) ∧ ps[i]? = some p ∧
        sb.trace = (if ["a", "b", "a"][i] ∈ ["a", "b", "a"].take i then sa.trace
                    else sa.trace ++ [DriverCall.Collection d ["a", "b", "a"][i]]) ∧
        ∃ j sf pf, j ≤ i ∧ ["a", "b", "a"][j]? = some ["a", "b", "a"][i] ∧
          ["a", "b", "a"][i] ∉ ["a", "b", "a"].take j ∧
          Mongodb.Collections demoDriver demoOpened (["a", "b", "a"].take j) = .ok (sf, pf) ∧
          sb.heap[p]? =
            some { collection := demoDriver.Collection sf.trace d ["a", "b", "a"][i] } ∧
          s2.heap[p]? =
            some { collection := demoDriver.Collection sf.trace d ["a", "b", "a"][i] } :=
  ⟨Opened.afterOpen demoOpen_eq, rfl,
   C2_each_name_resolved_once demoDriver demoOpened (Opened.afterOpen demoOpen_eq) rfl
     ["a", "b", "a"]⟩

/-! ### The cache across other calls -/

theorem Collection_ok_cached (drv : Driver) (s s1 : State) (n : String) (w : Nat)
    (h : Mongodb.Collection drv s n = .ok (s1, w)) :
    s1.m.cached n = some w ∧ ∀ k q, s.m.cached k = some q → s1.m.cached k = some q := by
  unfold Mongodb.Collection at h
  split at h
  · rename_i col hcol
    cases h
    exact ⟨hcol, fun _ _ hq => hq⟩
  · rename_i hnone
    split at h
    · cases h
    · simp only at h
      split at h
      · cases h
      · rename_i c hc
        cases h
        constructor
        · rw [cached_eq _ _ rfl, lookup_cons_eq, if_pos rfl]
        · intro k q hq
          have hk : k ≠ n := by
            intro e
            rw [e, hnone] at hq
            cases hq
          rw [cached_eq _ _ rfl, lookup_cons_eq, if_neg hk, ← cached_eq _ _ hc]
          exact hq

/-- A call that is not a successful `Open` keeps every cache entry. -/
theorem call_keeps_cached (drv : Driver) (s s1 : State) (c : Call) (r : Ret)
    (h : Mongodb.call drv s c = .ok (s1, r)) (hno : ∀ conn, (c, r) ≠ (Call.Open conn, Ret.err none))
    (k : String) (q : Nat) (hq : s.m.cached k = some q) : s1.m.cached k = some q := by
  cases c with
  | Open conn =>
    obtain ⟨⟨s2, oe⟩, h2, he⟩ := map_ok_inv _ _ _ h
    cases he
    rcases Open_ok_cases drv s _ conn oe h2 with ⟨hoe, _, _⟩ | ⟨_, _, hc1⟩
    · subst hoe
      exact absurd rfl (hno conn)
    · unfold Mongodb.cached
      rw [hc1]
      exact hq
  | Close =>
    obtain ⟨⟨s2, oe⟩, h2, he⟩ := map_ok_inv _ _ _ h
    cases he
    obtain ⟨hm, _⟩ := Close_keeps drv s _ oe h2
    simp only [hm]
    exact hq
  | Ping ctx =>
    obtain ⟨⟨s2, oe⟩, h2, he⟩ := map_ok_inv _ _ _ h
    cases he
    obtain ⟨hm, _⟩ := Ping_keeps drv s _ ctx oe h2
    simp only [hm]
    exact hq
  | Drop =>
    obtain ⟨⟨s2, oe⟩, h2, he⟩ := map_ok_inv _ _ _ h
    cases he
    obtain ⟨hm, _⟩ := Drop_keeps drv s _ oe h2
    simp only [hm]
    exact hq
  | Collection name =>
    obtain ⟨⟨s2, a⟩, h2, he⟩ := map_ok_inv _ _ _ h
    cases he
    exact (Collection_ok_cached drv s _ name a h2).2 k q hq

theorem run_keeps_cached (drv : Driver) (calls : List Call) :
    ∀ (s s1 : State) (tr : List (Call × Ret)), Mongodb.run drv s calls = .ok (s1, tr) →
      (∀ conn, (Call.Open conn, Ret.err none) ∉ tr) →
      ∀ k q, s.m.cached k = some q → s1.m.cached k = some q := by
  induction calls with
  | nil =>
    intro s s1 tr h _ k q hq
    simp only [Mongodb.run] at h
    cases h
    exact hq
  | cons c cs ih =>
    intro s s1 tr h hno k q hq
    simp only [Mongodb.run] at h
    split at h
    · cases h
    · rename_i s2 r h2
      split at h
      · cases h
      · rename_i s3 rs h3
        cases h
        have hfirst : ∀ conn, (c, r) ≠ (Call.Open conn, Ret.err none) := by
          intro conn e
          exact hno conn (by rw [e]; exact List.mem_cons_self _ _)
        have hrest : ∀ conn, (Call.Open conn, Ret.err none) ∉ rs :=
          fun conn hin => hno conn (List.mem_cons_of_mem _ hin)
        exact ih s2 _ rs h3 hrest k q (call_keeps_cached drv s s2 c r h2 hfirst k q hq)

/-- Claim C3 as stated fails. Against `demoDriver`: open, look up `a` (wrapper
0), open again, look up `a` again: the second lookup returns wrapper 1. -/
theorem C3_reopen_evicts :
    ∃ s, Mongodb.run demoDriver (State.new World.empty)
        [Call.Open (some demoConn), Call.Collection "a", Call.Open (some demoConn),
         Call.Collection "a"] =
      .ok (s, [(Call.Open (some demoConn), Ret.err none), (Call.Collection "a", Ret.col 0),
               (Call.Open (some demoConn), Ret.err none), (Call.Collection "a", Ret.col 1)]) ∧
      Ret.col 0 ≠ Ret.col 1 :=
  ⟨_, rfl, by decide⟩

/-- Claim C3, amended. Once `Collection(n)` has returned wrapper `w`, after every
sequence of `Open`, `Ping`, `Close`, `Drop` and `Collection` calls that ran
without a fault and in which no `Open` returned a nil error, `Collection(n)`
returns `w` again and changes nothing. -/
theorem C3_cache_kept_until_reopen (drv : Driver) (s s1 s2 : State) (n : String) (w : Nat)
    (calls : List Call) (tr : List (Call × Ret))
    (hfirst : Mongodb.Collection drv s n = .ok (s1, w))
    (hrun : Mongodb.run drv s1 calls = .ok (s2, tr))
    (hno : ∀ conn, (Call.Open conn, Ret.err none) ∉ tr) :
    Mongodb.Collection drv s2 n = .ok (s2, w) :=
  Collection_hit drv s2 n w
    (run_keeps_cached drv calls s1 s2 tr hrun hno n w (Collection_ok_cached drv s s1 n w hfirst).1)

theorem C3_cache_kept_until_reopen_witness :
    ∃ s1 s2 w tr, Mongodb.Collection demoDriver demoOpened "a" = .ok (s1, w) ∧
      Mongodb.run demoDriver s1
        [Call.Ping none, Call.Collection "b", Call.Drop, Call.Open (some badDsnConn),
         Call.Close, Call.Collection "a"] = .ok (s2, tr) ∧
      (∀ conn, (Call.Open conn, Ret.err none) ∉ tr) ∧
      Mongodb.Collection demoDriver s2 "a" = .ok (s2, w) :=
  ⟨_, _, _, _, rfl, rfl, by intro conn h; simp at h,
   C3_cache_kept_until_reopen demoDriver demoOpened _ _ "a" _
     [Call.Ping none, Call.Collection "b", Call.Drop, Call.Open (some badDsnConn),
      Call.Close, Call.Collection "a"] _ rfl rfl (by intro conn h; simp at h)⟩

/-! ### Managers without a client -/

/-- Claim C4. On a zero-value manager, in any world, `Ping(ctx)` for every `ctx`
(nil included) and `Close()` return `ErrorSessionNotInit` and leave the whole
state, the trace of driver calls included, as it was. -/
theorem C4_zero_value_ping_close (drv : Driver) (w : World) (ctx : Option GoContext) :
    Mongodb.Ping drv (State.new w) ctx =
        .ok (State.new w, some Error.ErrorSessionNotInit) ∧
      Mongodb.Close drv (State.new w) = .ok (State.new w, some Error.ErrorSessionNotInit) :=
  ⟨rfl, rfl⟩

theorem open_trace_client (drv : Driver) (s s1 : State) (oe : Option Error)
    (h : Mongodb.open drv s = .ok (s1, oe)) :
    ∃ t, s1.trace = s.trace ++ t ∧
      (s1.m.client = s.m.client ∨ s1.m.client = none ∨
        ∃ cl ctx rp, DriverCall.Ping cl ctx rp ∈ t) := by
  unfold Mongodb.open at h
  split at h
  · cases h
  · split at h
    · cases h
      exact ⟨[], by simp, Or.inl rfl⟩
    · split at h
      · cases h
        exact ⟨[], by simp, Or.inl rfl⟩
      · split at h
        · cases h
          exact ⟨[], by simp, Or.inl rfl⟩
        · simp only at h
          split at h
          · cases h
            exact ⟨_, rfl, Or.inr (Or.inl rfl)⟩
          · split at h
            · cases h
              exact ⟨_, List.append_assoc _ _ _, Or.inr (Or.inr
                ⟨_, _, _, List.mem_append_right _ (List.mem_singleton.mpr rfl)⟩)⟩
            · cases h
              exact ⟨_, (List.append_assoc _ _ _).trans (List.append_assoc _ _ _),
                Or.inr (Or.inr ⟨_, _, _, List.mem_append_right _
                  (List.mem_append_left _ (List.mem_singleton.mpr rfl))⟩)⟩

theorem call_trace_client (drv : Driver) (s s1 : State) (c : Call) (r : Ret)
    (h : Mongodb.call drv s c = .ok (s1, r)) :
    ∃ t, s1.trace = s.trace ++ t ∧
      (s1.m.client = s.m.client ∨ s1.m.client = none ∨
        ∃ cl ctx rp, DriverCall.Ping cl ctx rp ∈ t) := by
  cases c with
  | Open conn =>
    obtain ⟨⟨s2, oe⟩, h2, he⟩ := map_ok_inv _ _ _ h
    cases he
    exact open_trace_client drv { s with m := { s.m with conn := conn } } s2 oe h2
  | Close =>
    obtain ⟨⟨s2, oe⟩, h2, he⟩ := map_ok_inv _ _ _ h
    cases he
    unfold Mongodb.Close at h2
    split at h2
    · split at h2
      · cases h2
      · cases h2
        exact ⟨_, rfl, Or.inl rfl⟩
    · cases h2
      exact ⟨[], by simp, Or.inl rfl⟩
  | Ping ctx =>
    obtain ⟨⟨s2, oe⟩, h2, he⟩ := map_ok_inv _ _ _ h
    cases he
    unfold Mongodb.Ping at h2
    split at h2
    · cases h2
      exact ⟨[], by simp, Or.inl rfl⟩
    · simp only at h2
      split at h2
      · cases h2
      · cases h2
        exact ⟨_, rfl, Or.inl rfl⟩
  | Drop =>
    obtain ⟨⟨s2, oe⟩, h2, he⟩ := map_ok_inv _ _ _ h
    cases he
    unfold Mongodb.Drop at h2
    split at h2
    · cases h2
    · split at h2
      · cases h2
      · cases h2
        exact ⟨_, rfl, Or.inl rfl⟩
  | Collection name =>
    obtain ⟨⟨s2, a⟩, h2, he⟩ := map_ok_inv _ _ _ h
    cases he
    unfold Mongodb.Collection at h2
    split at h2
    · cases h2
      exact ⟨[], by simp, Or.inl rfl⟩
    · split at h2
      · cases h2
      · simp only at h2
        split at h2
        · cases h2
        · cases h2
          exact ⟨_, rfl, Or.inl rfl⟩

/-- Over a run the trace only grows, and a client that appears was pinged. -/
theorem run_trace_client (drv : Driver) (calls : List Call) :
    ∀ (s s1 : State) (tr : List (Call × Ret)), Mongodb.run drv s calls = .ok (s1, tr) →
      ∃ t, s1.trace = s.trace ++ t ∧
        (s1.m.client = s.m.client ∨ s1.m.client = none ∨
          ∃ cl ctx rp, DriverCall.Ping cl ctx rp ∈ t) := by
  induction calls with
  | nil =>
    intro s s1 tr h
    simp only [Mongodb.run] at h
    cases h
    exact ⟨[], by simp, Or.inl rfl⟩
  | cons c cs ih =>
    intro s s1 tr h
    simp only [Mongodb.run] at h
    split at h
    · cases h
    · rename_i s2 r h2
      split at h
      · cases h
      · rename_i s3 rs h3
        cases h
        obtain ⟨t1, ht1, hc1⟩ := call_trace_client drv s s2 c r h2
        obtain ⟨t2, ht2, hc2⟩ := ih s2 _ rs h3
        refine ⟨t1 ++ t2, by rw [ht2, ht1, List.append_assoc], ?_⟩
        rcases hc2 with e2 | e2 | ⟨cl, ctx, rp, hin⟩
        · rcases hc1 with e1 | e1 | ⟨cl, ctx, rp, hin⟩
          · exact Or.inl (e2.trans e1)
          · exact Or.inr (Or.inl (e2.trans e1))
          · exact Or.inr (Or.inr ⟨cl, ctx, rp, List.mem_append_left _ hin⟩)
        · exact Or.inr (Or.inl e2)
        · exact Or.inr (Or.inr ⟨cl, ctx, rp, List.mem_append_right _ hin⟩)

/-- Claim C5 as stated fails. Against `unreachableDriver` (Connect succeeds,
every ping fails) `Open` on a zero-value manager returns the ping's error, so
no `Open` has succeeded; yet `Ping(nil)` then calls the driver and returns the
driver's error, and `Close()` calls the driver's `Disconnect` and returns nil. -/
theorem C5_client_kept_after_failed_ping :
    ∃ s1 s2 s3, Mongodb.Open unreachableDriver (State.new World.empty) (some demoConn) =
        .ok (s1, some (Error.driver 7)) ∧
      Mongodb.Ping unreachableDriver s1 none = .ok (s2, some (Error.driver 7)) ∧
      s2.trace = s1.trace ++
        [DriverCall.Ping { id := 0 } (some (GoContext.user 0)) unreachableDriver.Primary] ∧
      Mongodb.Close unreachableDriver s1 = .ok (s3, none) ∧
      s3.trace = s1.trace ++ [DriverCall.Disconnect { id := 0 } (some (GoContext.user 0))] ∧
      some (Error.driver 7) ≠ some Error.ErrorSessionNotInit :=
  ⟨_, _, _, rfl, rfl, rfl, rfl, rfl, by decide⟩

/-- Claim C5, amended. Take a zero-value manager and any sequence of calls on it
that ran without a fault, and let `t` be the driver calls made since.  If `t`
holds no driver ping (no `Open` attempt got past the driver's Connect), then
`Ping(ctx)` for every `ctx` and `Close()` return `ErrorSessionNotInit` and
leave the state, the trace of driver calls included, as it was. -/
theorem C5_not_init_without_client (drv : Driver) (w : World) (calls : List Call) (s : State)
    (tr : List (Call × Ret)) (t : List DriverCall)
    (hrun : Mongodb.run drv (State.new w) calls = .ok (s, tr))
    (ht : s.trace = w.trace ++ t)
    (hnp : ∀ cl ctx rp, DriverCall.Ping cl ctx rp ∉ t) (ctx : Option GoContext) :
    Mongodb.Ping drv s ctx = .ok (s, some Error.ErrorSessionNotInit) ∧
      Mongodb.Close drv s = .ok (s, some Error.ErrorSessionNotInit) := by
  obtain ⟨t1, ht1, hc⟩ := run_trace_client drv calls (State.new w) s tr hrun
  have hw : (State.new w).trace = w.trace := rfl
  rw [hw, ht] at ht1
  have ht2 : t = t1 := List.append_cancel_left ht1
  subst ht2
  have hclient : s.m.client = none := by
    rcases hc with e | e | ⟨cl, c, rp, hin⟩
    · exact e
    · exact e
    · exact absurd hin (hnp cl c rp)
  constructor
  · simp [Mongodb.Ping, hclient]
  · simp [Mongodb.Close, hclient]

theorem C5_not_init_without_client_witness :
    ∃ s tr t, Mongodb.run demoDriver (State.new World.empty)
        [Call.Open (some badDsnConn), Call.Ping none, Call.Open (some badModeConn),
         Call.Close] = .ok (s, tr) ∧
      s.trace = World.empty.trace ++ t ∧
      (∀ cl ctx rp, DriverCall.Ping cl ctx rp ∉ t) ∧
      Mongodb.Ping demoDriver s (some GoContext.Background) =
        .ok (s, some Error.ErrorSessionNotInit) ∧
      Mongodb.Close demoDriver s = .ok (s, some Error.ErrorSessionNotInit) :=
  ⟨_, _, [], rfl, rfl, (by intro cl ctx rp h; cases h),
   C5_not_init_without_client demoDriver World.empty
     [Call.Open (some badDsnConn), Call.Ping none, Call.Open (some badModeConn), Call.Close]
     _ _ [] rfl rfl (by intro cl ctx rp h; cases h) (some GoContext.Background)⟩

/-! ### Opening -/

/-- Claim C6. When the connection string is rejected by the DSN parser, or it is
accepted and the mode name is rejected by the mode lookup, or both are accepted
and the mode options are rejected by the read-preference constructor, `Open`
returns that error; the only change is the stored configuration pointer: no
driver call is added to the trace (so neither Connect nor Ping was invoked) and
the client, the database reference, the cache map and the heap are as before. -/
theorem C6_config_error_before_network (drv : Driver) (s : State) (conn : Options) (e : Error)
    (hrej : drv.dsnParserNew conn.Dsn = .error e ∨
      (∃ dsn, drv.dsnParserNew conn.Dsn = .ok dsn ∧ drv.ModeFromString conn.Mode = .error e) ∨
      (∃ dsn mode, drv.dsnParserNew conn.Dsn = .ok dsn ∧
        drv.ModeFromString conn.Mode = .ok mode ∧
        drv.readprefNew mode conn.ModeOpts = .error e)) :
    ∃ s1, Mongodb.Open drv s (some conn) = .ok (s1, some e) ∧
      s1 = { s with m := { s.m with conn := some conn } } ∧
      s1.trace = s.trace ∧ s1.m.client = s.m.client ∧ s1.m.database = s.m.database ∧
      s1.m.collections = s.m.collections ∧ s1.heap = s.heap := by
  refine ⟨{ s with m := { s.m with conn := some conn } }, ?_, rfl, rfl, rfl, rfl, rfl, rfl⟩
  rcases hrej with h1 | ⟨dsn, h1, h2⟩ | ⟨dsn, mode, h1, h2, h3⟩
  · simp [Mongodb.Open, Mongodb.open, h1]
  · simp [Mongodb.Open, Mongodb.open, h1, h2]
  · simp [Mongodb.Open, Mongodb.open, h1, h2, h3]

theorem C6_config_error_before_network_witness :
    (demoDriver.dsnParserNew badModeConn.Dsn = .error (Error.driver 2) ∨
      (∃ dsn, demoDriver.dsnParserNew badModeConn.Dsn = .ok dsn ∧
        demoDriver.ModeFromString badModeConn.Mode = .error (Error.driver 2)) ∨
      (∃ dsn mode, demoDriver.dsnParserNew badModeConn.Dsn = .ok dsn ∧
        demoDriver.ModeFromString badModeConn.Mode = .ok mode ∧
        demoDriver.readprefNew mode badModeConn.ModeOpts = .error (Error.driver 2))) ∧
    ∃ s1, Mongodb.Open demoDriver demoOpened (some badModeConn) =
        .ok (s1, some (Error.driver 2)) ∧
      s1 = { demoOpened with m := { demoOpened.m with conn := some badModeConn } } ∧
      s1.trace = demoOpened.trace ∧ s1.m.client = demoOpened.m.client ∧
      s1.m.database = demoOpened.m.database ∧
      s1.m.collections = demoOpened.m.collections ∧ s1.heap = demoOpened.heap :=
  ⟨Or.inr (Or.inl ⟨{ Database := "test" }, rfl, rfl⟩),
   C6_config_error_before_network demoDriver demoOpened badModeConn (Error.driver 2)
     (Or.inr (Or.inl ⟨{ Database := "test" }, rfl, rfl⟩))⟩

/-- With a configuration pointer that is not nil, `Open` returns. -/
theorem Open_returns (drv : Driver) (s : State) (conn : Options) :
    ∃ s1 oe, Mongodb.Open drv s (some conn) = .ok (s1, oe) := by
  unfold Mongodb.Open Mongodb.open
  simp only
  split
  · exact ⟨_, _, rfl⟩
  · split
    · exact ⟨_, _, rfl⟩
    · split
      · exact ⟨_, _, rfl⟩
      · split
        · exact ⟨_, _, rfl⟩
        · split
          · exact ⟨_, _, rfl⟩
          · exact ⟨_, _, rfl⟩

/-- Claim C7. For every list of options `New` returns, and what it returns is
decided by the `Open` it performs on a fresh manager with the accumulated
settings: when that `Open` returns an error, a nil `Database` with that same
error; when it returns nil, the manager (not nil) with a nil error.  So
exactly one of the two results is nil. -/
theorem C7_New_database_xor_error (drv : Driver) (w : World) (options : List ConfigOption) :
    ∃ s oe db err, Mongodb.Open drv (State.new w) (some (New.conn options)) = .ok (s, oe) ∧
      New drv w options = .ok (s.toWorld, db, err) ∧
      (∀ e, oe = some e → db = none ∧ err = some e) ∧
      (oe = none → db = some s.m ∧ err = none) ∧
      (db.isSome ↔ err.isNone) := by
  obtain ⟨s, oe, h⟩ := Open_returns drv (State.new w) (New.conn options)
  have h2 : Mongodb.Open drv { w with m := Mongodb.zero } (some (New.conn options)) =
      .ok (s, oe) := h
  cases oe with
  | none =>
    refine ⟨s, none, some s.m, none, h, ?_, ?_, ?_, ?_⟩
    · simp [New, h2]
    · intro e he
      cases he
    · intro _
      exact ⟨rfl, rfl⟩
    · simp
  | some e =>
    refine ⟨s, some e, none, some e, h, ?_, ?_, ?_, ?_⟩
    · simp [New, h2]
    · intro e1 he
      cases he
      exact ⟨rfl, rfl⟩
    · intro he
      cases he
    · simp

/-- Claim C8, what the code does. `Drop()` has no guard: on a zero-value manager
(in any world, with any driver) it faults with a nil dereference, where `Ping`
and `Close` return `ErrorSessionNotInit`; and after an `Open` that returned a
configuration error it faults as well. -/
theorem C8_Drop_faults_when_not_opened (drv : Driver) (w : World) :
    Mongodb.Drop drv (State.new w) = .error Panic.nilDereference ∧
      Mongodb.Ping drv (State.new w) none =
        .ok (State.new w, some Error.ErrorSessionNotInit) ∧
      Mongodb.Close drv (State.new w) = .ok (State.new w, some Error.ErrorSessionNotInit) ∧
      ∃ s1, Mongodb.Open demoDriver (State.new w) (some badDsnConn) =
          .ok (s1, some (Error.driver 1)) ∧
        Mongodb.Drop demoDriver s1 = .error Panic.nilDereference :=
  ⟨rfl, rfl, rfl, _, rfl, rfl⟩

/-! ### The collection wrapper -/

/-- Claim C9. Let the driver's `Aggregate` answer `(ca, ea)` and its `Find`
answer `(cf, ef)` for the given context, pipeline or filter and options.  The
wrapper's `Aggregate` (resp. `Find`) makes that one driver call; when the
driver's error is `e`, not nil, it returns a nil `CursorInterface` and exactly
`e` and allocates nothing; when the driver's error is nil it returns a nil
error and the address of a newly allocated `Cursor` that wraps exactly the
driver's cursor. -/
theorem C9_Aggregate_Find_results (drv : Driver) (w : World) (m : Collection)
    (ctx : Option GoContext) (pipeline filter : Value) (opts : Opts)
    (ca cf : Option CursorHandle) (ea ef : Option Error)
    (ha : drv.Aggregate w.trace m.collection ctx pipeline opts = (ca, ea))
    (hf : drv.Find w.trace m.collection ctx filter opts = (cf, ef)) :
    (∃ w1 r err, Collection.Aggregate drv w m ctx pipeline opts = (w1, r, err) ∧
      w1.trace = w.trace ++ [DriverCall.Aggregate m.collection ctx pipeline opts] ∧
      w1.heap = w.heap ∧
      (∀ e, ea = some e → r = none ∧ err = some e ∧ w1.cursors = w.cursors) ∧
      (ea = none → err = none ∧ r = some w.cursors.length ∧
        w1.cursors = w.cursors ++ [{ cursor := ca }] ∧
        w1.cursors[w.cursors.length]? = some { cursor := ca })) ∧
    (∃ w1 r err, Collection.Find drv w m ctx filter opts = (w1, r, err) ∧
      w1.trace = w.trace ++ [DriverCall.Find m.collection ctx filter opts] ∧
      w1.heap = w.heap ∧
      (∀ e, ef = some e → r = none ∧ err = some e ∧ w1.cursors = w.cursors) ∧
      (ef = none → err = none ∧ r = some w.cursors.length ∧
        w1.cursors = w.cursors ++ [{ cursor := cf }] ∧
        w1.cursors[w.cursors.length]? = some { cursor := cf })) := by
  constructor
  · cases ea with
    | some e =>
      refine ⟨{ w with trace := w.trace ++ [DriverCall.Aggregate m.collection ctx pipeline opts] },
        none, some e, by simp [Collection.Aggregate, ha], rfl, rfl, ?_, ?_⟩
      · intro e1 he
        cases he
        exact ⟨rfl, rfl, rfl⟩
      · intro he
        cases he
    | none =>
      refine ⟨{ w with
                trace := w.trace ++ [DriverCall.Aggregate m.collection ctx pipeline opts],
                cursors := w.cursors ++ [{ cursor := ca }] },
        some w.cursors.length, none, by simp [Collection.Aggregate, ha], rfl, rfl, ?_, ?_⟩
      · intro e1 he
        cases he
      · intro _
        exact ⟨rfl, rfl, rfl, List.getElem?_concat_length _ _⟩
  · cases ef with
    | some e =>
      refine ⟨{ w with trace := w.trace ++ [DriverCall.Find m.collection ctx filter opts] },
        none, some e, by simp [Collection.Find, hf], rfl, rfl, ?_, ?_⟩
      · intro e1 he
        cases he
        exact ⟨rfl, rfl, rfl⟩
      · intro he
        cases he
    | none =>
      refine ⟨{ w with
                trace := w.trace ++ [DriverCall.Find m.collection ctx filter opts],
                cursors := w.cursors ++ [{ cursor := cf }] },
        some w.cursors.length, none, by simp [Collection.Find, hf], rfl, rfl, ?_, ?_⟩
      · intro e1 he
        cases he
      · intro _
        exact ⟨rfl, rfl, rfl, List.getElem?_concat_length _ _⟩

theorem C9_Aggregate_Find_results_witness :
    demoDriver.Aggregate demoOpened.trace demoCollection.collection (some GoContext.Background)
        { id := 0 } [] = (none, some (Error.driver 40324)) ∧
    demoDriver.Find demoOpened.trace demoCollection.collection (some GoContext.Background)
        { id := 5 } [] = (some { id := 3 }, none) ∧
    (∃ w1 r err, Collection.Aggregate demoDriver demoOpened.toWorld demoCollection
        (some GoContext.Background) { id := 0 } [] = (w1, r, err) ∧
      w1.trace = demoOpened.trace ++
        [DriverCall.Aggregate demoCollection.collection (some GoContext.Background)
          { id := 0 } []] ∧
      w1.heap = demoOpened.heap ∧
      (∀ e, some (Error.driver 40324) = some e →
        r = none ∧ err = some e ∧ w1.cursors = demoOpened.cursors) ∧
      ((some (Error.driver 40324) : Option Error) = none → err = none ∧
        r = some demoOpened.cursors.length ∧
        w1.cursors = demoOpened.cursors ++ [{ cursor := none }] ∧
        w1.cursors[demoOpened.cursors.length]? = some { cursor := none })) ∧
    (∃ w1 r err, Collection.Find demoDriver demoOpened.toWorld demoCollection
        (some GoContext.Background) { id := 5 } [] = (w1, r, err) ∧
      w1.trace = demoOpened.trace ++
        [DriverCall.Find demoCollection.collection (some GoContext.Background) { id := 5 } []] ∧
      w1.heap = demoOpened.heap ∧
      (∀ e, (none : Option Error) = some e →
        r = none ∧ err = some e ∧ w1.cursors = demoOpened.cursors) ∧
      ((none : Option Error) = none → err = none ∧ r = some demoOpened.cursors.length ∧
        w1.cursors = demoOpened.cursors ++ [{ cursor := some { id := 3 } }] ∧
        w1.cursors[demoOpened.cursors.length]? = some { cursor := some { id := 3 } })) :=
  ⟨rfl, rfl,
   C9_Aggregate_Find_results demoDriver demoOpened.toWorld demoCollection
     (some GoContext.Background) { id := 0 } { id := 5 } [] none (some { id := 3 })
     (some (Error.driver 40324)) none rfl rfl⟩

/-- Claim C10. Each of `CountDocuments`, `DeleteMany`, `DeleteOne`, `Distinct`,
`InsertMany`, `InsertOne`, `ReplaceOne`, `UpdateMany`, `UpdateOne`, `BulkWrite`
and `Indexes` on a wrapper adds to the trace exactly one call, of the
same-named driver operation on the wrapped collection with the wrapper's
arguments in the wrapper's order, allocates nothing, and returns what the
driver answered to that call (result and error together). -/
theorem C10_pass_through_operations (drv : Driver) (w : World) (m : Collection)
    (ctx : Option GoContext) (fieldName : String) (filter update replacement document : Value)
    (documents models : List Value) (opts : Opts) :
    ForwardsOnce w (Collection.CountDocuments drv w m ctx filter opts)
        (DriverCall.CountDocuments m.collection ctx filter opts)
        (drv.CountDocuments w.trace m.collection ctx filter opts) ∧
      ForwardsOnce w (Collection.DeleteMany drv w m ctx filter opts)
        (DriverCall.DeleteMany m.collection ctx filter opts)
        (drv.DeleteMany w.trace m.collection ctx filter opts) ∧
      ForwardsOnce w (Collection.DeleteOne drv w m ctx filter opts)
        (DriverCall.DeleteOne m.collection ctx filter opts)
        (drv.DeleteOne w.trace m.collection ctx filter opts) ∧
      ForwardsOnce w (Collection.Distinct drv w m ctx fieldName filter opts)
        (DriverCall.Distinct m.collection ctx fieldName filter opts)
        (drv.Distinct w.trace m.collection ctx fieldName filter opts) ∧
      ForwardsOnce w (Collection.InsertMany drv w m ctx documents opts)
        (DriverCall.InsertMany m.collection ctx documents opts)
        (drv.InsertMany w.trace m.collection ctx documents opts) ∧
      ForwardsOnce w (Collection.InsertOne drv w m ctx document opts)
        (DriverCall.InsertOne m.collection ctx document opts)
        (drv.InsertOne w.trace m.collection ctx document opts) ∧
      ForwardsOnce w (Collection.ReplaceOne drv w m ctx filter replacement opts)
        (DriverCall.ReplaceOne m.collection ctx filter replacement opts)
        (drv.ReplaceOne w.trace m.collection ctx filter replacement opts) ∧
      ForwardsOnce w (Collection.UpdateMany drv w m ctx filter update opts)
        (DriverCall.UpdateMany m.collection ctx filter update opts)
        (drv.UpdateMany w.trace m.collection ctx filter update opts) ∧
      ForwardsOnce w (Collection.UpdateOne drv w m ctx filter update opts)
        (DriverCall.UpdateOne m.collection ctx filter update opts)
        (drv.UpdateOne w.trace m.collection ctx filter update opts) ∧
      ForwardsOnce w (Collection.BulkWrite drv w m ctx models opts)
        (DriverCall.BulkWrite m.collection ctx models opts)
        (drv.BulkWrite w.trace m.collection ctx models opts) ∧
      ForwardsOnce w (Collection.Indexes drv w m) (DriverCall.Indexes m.collection)
        (drv.Indexes w.trace m.collection) :=
  ⟨⟨rfl, rfl, rfl, rfl⟩, ⟨rfl, rfl, rfl, rfl⟩, ⟨rfl, rfl, rfl, rfl⟩, ⟨rfl, rfl, rfl, rfl⟩,
   ⟨rfl, rfl, rfl, rfl⟩, ⟨rfl, rfl, rfl, rfl⟩, ⟨rfl, rfl, rfl, rfl⟩, ⟨rfl, rfl, rfl, rfl⟩,
   ⟨rfl, rfl, rfl, rfl⟩, ⟨rfl, rfl, rfl, rfl⟩, ⟨rfl, rfl, rfl, rfl⟩⟩

/-! ### The settings built by `New` -/

/-- Applying the options in list order leaves in each field the last supplied
value, or the initial one when none was supplied. -/
theorem foldl_options (l : List SuppliedOption) :
    ∀ acc : Options,
      (((l.map SuppliedOption.toOption).foldl (fun o opt => opt o) acc).Dsn =
          (lastDsn l).getD acc.Dsn) ∧
      (((l.map SuppliedOption.toOption).foldl (fun o opt => opt o) acc).Mode =
          (lastMode l).getD acc.Mode) ∧
      (((l.map SuppliedOption.toOption).foldl (fun o opt => opt o) acc).ModeOpts =
          (lastModeOpts l).getD acc.ModeOpts) ∧
      (((l.map SuppliedOption.toOption).foldl (fun o opt => opt o) acc).Context =
          (lastContext l).getD acc.Context) := by
  induction l with
  | nil =>
    intro acc
    exact ⟨rfl, rfl, rfl, rfl⟩
  | cons o rest ih =>
    intro acc
    obtain ⟨h1, h2, h3, h4⟩ := ih (o.toOption acc)
    simp only [List.map_cons, List.foldl_cons]
    rw [h1, h2, h3, h4]
    simp only [lastDsn, lastMode, lastModeOpts, lastContext]
    refine ⟨?_, ?_, ?_, ?_⟩
    · cases lastDsn rest with
      | some v => rfl
      | none => cases o <;> rfl
    · cases lastMode rest with
      | some v => rfl
      | none => cases o <;> rfl
    · cases lastModeOpts rest with
      | some v => rfl
      | none => cases o <;> rfl
    · cases lastContext rest with
      | some v => rfl
      | none => cases o <;> rfl

theorem New_conn_eq_specConn (l : List SuppliedOption) :
    New.conn (l.map SuppliedOption.toOption) = specConn l := by
  obtain ⟨h1, h2, h3, h4⟩ := foldl_options l
    { Dsn := "", Mode := "", ModeOpts := none, Context := none }
  simp only [New.conn, specConn, h1, h2, h3, h4, DefaultMode, DefaultContextTimeout]
  cases hd : lastDsn l with
  | none =>
    cases hm : lastMode l with
    | none => cases hc : lastContext l with
      | none => cases ho : lastModeOpts l <;> simp
      | some c => cases c <;> cases ho : lastModeOpts l <;> simp
    | some m =>
      by_cases em : m = ""
      · cases hc : lastContext l with
        | none => cases ho : lastModeOpts l <;> simp [em]
        | some c => cases c <;> cases ho : lastModeOpts l <;> simp [em]
      · cases hc : lastContext l with
        | none => cases ho : lastModeOpts l <;> simp [em]
        | some c => cases c <;> cases ho : lastModeOpts l <;> simp [em]
  | some d =>
    by_cases ed : d = ""
    · cases hm : lastMode l with
      | none => cases hc : lastContext l with
        | none => cases ho : lastModeOpts l <;> simp [ed]
        | some c => cases c <;> cases ho : lastModeOpts l <;> simp [ed]
      | some m =>
        by_cases em : m = ""
        · cases hc : lastContext l with
          | none => cases ho : lastModeOpts l <;> simp [em, ed]
          | some c => cases c <;> cases ho : lastModeOpts l <;> simp [em, ed]
        · cases hc : lastContext l with
          | none => cases ho : lastModeOpts l <;> simp [em, ed]
          | some c => cases c <;> cases ho : lastModeOpts l <;> simp [em, ed]
    · cases hm : lastMode l with
      | none => cases hc : lastContext l with
        | none => cases ho : lastModeOpts l <;> simp [ed]
        | some c => cases c <;> cases ho : lastModeOpts l <;> simp [ed]
      | some m =>
        by_cases em : m = ""
        · cases hc : lastContext l with
          | none => cases ho : lastModeOpts l <;> simp [em, ed]
          | some c => cases c <;> cases ho : lastModeOpts l <;> simp [em, ed]
        · cases hc : lastContext l with
          | none => cases ho : lastModeOpts l <;> simp [em, ed]
          | some c => cases c <;> cases ho : lastModeOpts l <;> simp [em, ed]

/-- Claim C11. For every list of options built by `Dsn`, `Mode`, `ModeOpts` and
`Context`, the settings `New` computes from the source are the settings of the
specification (`specConn`): the defaults overridden field by field by the last
supplied values; these are the settings `New` passes to `Open` on a fresh
manager, whose outcome `New` returns; and a list with no `Mode` option, or
whose last `Mode` option is the empty string, opens with mode `primary`. -/
theorem C11_New_settings (l : List SuppliedOption) :
    New.conn (l.map SuppliedOption.toOption) = specConn l ∧
      (∀ (drv : Driver) (w : World),
        New drv w (l.map SuppliedOption.toOption) =
          match Mongodb.Open drv (State.new w) (some (specConn l)) with
          | .error p => .error p
          | .ok (s, some err) => .ok (s.toWorld, none, some err)
          | .ok (s, none) => .ok (s.toWorld, some s.m, none)) ∧
      ((lastMode l = none ∨ lastMode l = some "") →
        (New.conn (l.map SuppliedOption.toOption)).Mode = "primary") ∧
      (specConn []).Dsn = "" ∧ (specConn []).Mode = "primary" ∧
      (specConn []).ModeOpts = none ∧
      (specConn []).Context =
        some (GoContext.WithTimeout GoContext.Background (5 * 1000000000)) := by
  have h := New_conn_eq_specConn l
  refine ⟨h, ?_, ?_, rfl, rfl, rfl, rfl⟩
  · intro drv w
    unfold New
    rw [h]
    rfl
  · intro hm
    rw [h]
    rcases hm with e | e
    · simp [specConn, e]
    · simp [specConn, e]

theorem C11_New_settings_example :
    New.conn ([SuppliedOption.Mode "secondary", SuppliedOption.Dsn "mongodb://db/test",
        SuppliedOption.Mode "", SuppliedOption.Context none].map SuppliedOption.toOption) =
      { Dsn := "mongodb://db/test", Mode := "primary", ModeOpts := none,
        Context := some (GoContext.WithTimeout GoContext.Background 5000000000) } := by
  rfl

/-! ### Nil-safety of the manager -/

theorem Open_conn (drv : Driver) (s s1 : State) (conn : Option Options) (oe : Option Error)
    (h : Mongodb.Open drv s conn = .ok (s1, oe)) :
    ∃ cn, conn = some cn ∧ s1.m.conn = some cn := by
  cases conn with
  | none => simp [Mongodb.Open, Mongodb.open] at h
  | some cn =>
    refine ⟨cn, rfl, ?_⟩
    unfold Mongodb.Open at h
    cases oe with
    | none =>
      obtain ⟨_, _, _, hc, _⟩ := open_success drv _ s1 h
      rw [hc]
    | some e =>
      obtain ⟨_, _, hc, _⟩ := open_failure drv _ s1 e h
      rw [hc]

theorem Collection_fields (drv : Driver) (s s1 : State) (n : String) (p : Nat)
    (h : Mongodb.Collection drv s n = .ok (s1, p)) :
    s1.m.conn = s.m.conn ∧ s1.m.client = s.m.client ∧ s1.m.database = s.m.database ∧
      (s1.m.collections.isSome ↔ s.m.collections.isSome) := by
  unfold Mongodb.Collection at h
  split at h
  · cases h
    exact ⟨rfl, rfl, rfl, Iff.rfl⟩
  · split at h
    · cases h
    · simp only at h
      split at h
      · cases h
      · rename_i c hc
        cases h
        refine ⟨rfl, rfl, rfl, ?_⟩
        simp [hc]

/-- Every call that returns keeps the two nil-safety facts: a client comes
with a configuration, and the database reference is set exactly when the
cache map is. -/
theorem call_keeps_safe (drv : Driver) (s s1 : State) (c : Call) (r : Ret)
    (hs : (s.m.client.isSome → s.m.conn.isSome) ∧
      (s.m.database.isSome ↔ s.m.collections.isSome))
    (h : Mongodb.call drv s c = .ok (s1, r)) :
    (s1.m.client.isSome → s1.m.conn.isSome) ∧
      (s1.m.database.isSome ↔ s1.m.collections.isSome) := by
  obtain ⟨h1, h2⟩ := hs
  cases c with
  | Open conn =>
    obtain ⟨⟨s2, oe⟩, ho, he⟩ := map_ok_inv _ _ _ h
    cases he
    obtain ⟨cn, _, hcn⟩ := Open_conn drv s _ conn oe ho
    refine ⟨fun _ => by simp [hcn], ?_⟩
    rcases Open_ok_cases drv s _ conn oe ho with ⟨_, ⟨d, hd⟩, hc⟩ | ⟨_, hd, hc⟩
    · simp [hd, hc]
    · simp only [hd, hc]
      exact h2
  | Close =>
    obtain ⟨⟨s2, oe⟩, ho, he⟩ := map_ok_inv _ _ _ h
    cases he
    obtain ⟨hm, _⟩ := Close_keeps drv s _ oe ho
    simp only [hm]
    exact ⟨h1, h2⟩
  | Ping ctx =>
    obtain ⟨⟨s2, oe⟩, ho, he⟩ := map_ok_inv _ _ _ h
    cases he
    obtain ⟨hm, _⟩ := Ping_keeps drv s _ ctx oe ho
    simp only [hm]
    exact ⟨h1, h2⟩
  | Drop =>
    obtain ⟨⟨s2, oe⟩, ho, he⟩ := map_ok_inv _ _ _ h
    cases he
    obtain ⟨hm, _⟩ := Drop_keeps drv s _ oe ho
    simp only [hm]
    exact ⟨h1, h2⟩
  | Collection name =>
    obtain ⟨⟨s2, a⟩, ho, he⟩ := map_ok_inv _ _ _ h
    cases he
    obtain ⟨e1, e2, e3, e4⟩ := Collection_fields drv s _ name a ho
    simp only [e1, e2, e3, e4]
    exact ⟨h1, h2⟩

/-- Every call that returns keeps a configuration that is set. -/
theorem call_keeps_conn (drv : Driver) (s s1 : State) (c : Call) (r : Ret)
    (hs : s.m.conn.isSome) (h : Mongodb.call drv s c = .ok (s1, r)) : s1.m.conn.isSome := by
  cases c with
  | Open conn =>
    obtain ⟨⟨s2, oe⟩, ho, he⟩ := map_ok_inv _ _ _ h
    cases he
    obtain ⟨cn, _, hcn⟩ := Open_conn drv s _ conn oe ho
    simp [hcn]
  | Close =>
    obtain ⟨⟨s2, oe⟩, ho, he⟩ := map_ok_inv _ _ _ h
    cases he
    obtain ⟨hm, _⟩ := Close_keeps drv s _ oe ho
    simp only [hm]
    exact hs
  | Ping ctx =>
    obtain ⟨⟨s2, oe⟩, ho, he⟩ := map_ok_inv _ _ _ h
    cases he
    obtain ⟨hm, _⟩ := Ping_keeps drv s _ ctx oe ho
    simp only [hm]
    exact hs
  | Drop =>
    obtain ⟨⟨s2, oe⟩, ho, he⟩ := map_ok_inv _ _ _ h
    cases he
    obtain ⟨hm, _⟩ := Drop_keeps drv s _ oe ho
    simp only [hm]
    exact hs
  | Collection name =>
    obtain ⟨⟨s2, a⟩, ho, he⟩ := map_ok_inv _ _ _ h
    cases he
    obtain ⟨e1, _⟩ := Collection_fields drv s _ name a ho
    simp only [e1]
    exact hs

/-- Over a run that returns, the nil-safety facts are kept, and once an `Open`
has returned nil the configuration, the database reference and the cache map
are all set. -/
theorem run_safe (drv : Driver) (calls : List Call) :
    ∀ (s s1 : State) (tr : List (Call × Ret)), Mongodb.run drv s calls = .ok (s1, tr) →
      ((s.m.client.isSome → s.m.conn.isSome) ∧
        (s.m.database.isSome ↔ s.m.collections.isSome)) →
      ((s1.m.client.isSome → s1.m.conn.isSome) ∧
        (s1.m.database.isSome ↔ s1.m.collections.isSome)) ∧
      (((s.m.conn.isSome ∧ s.m.database.isSome) ∨
          ∃ conn, (Call.Open conn, Ret.err none) ∈ tr) →
        s1.m.conn.isSome ∧ s1.m.database.isSome) := by
  induction calls with
  | nil =>
    intro s s1 tr h hs
    simp only [Mongodb.run] at h
    cases h
    refine ⟨hs, ?_⟩
    rintro (hk | ⟨conn, hin⟩)
    · exact hk
    · cases hin
  | cons c cs ih =>
    intro s s1 tr h hs
    simp only [Mongodb.run] at h
    split at h
    · cases h
    · rename_i s2 r h2
      split at h
      · cases h
      · rename_i s3 rs h3
        cases h
        have hs2 := call_keeps_safe drv s s2 c r hs h2
        obtain ⟨hj, hk⟩ := ih s2 _ rs h3 hs2
        refine ⟨hj, ?_⟩
        intro hpre
        apply hk
        rcases hpre with ⟨hc, hd⟩ | ⟨conn, hin⟩
        · left
          refine ⟨call_keeps_conn drv s s2 c r hc h2, ?_⟩
          have hcm : s.m.collections.isSome := hs.2.mp hd
          obtain ⟨d, hd1⟩ := Option.isSome_iff_exists.mp hd
          obtain ⟨cm, hcm1⟩ := Option.isSome_iff_exists.mp hcm
          obtain ⟨⟨d2, hd2⟩, _⟩ := call_keeps_opened drv s s2 c r ⟨⟨d, hd1⟩, ⟨cm, hcm1⟩⟩ h2
          simp [hd2]
        · rcases List.mem_cons.mp hin with e | e
          · left
            cases e
            obtain ⟨⟨s4, oe⟩, ho, he⟩ := map_ok_inv _ _ _ h2
            cases he
            obtain ⟨cn, _, hcn⟩ := Open_conn drv s _ conn _ ho
            rcases Open_ok_cases drv s _ conn _ ho with ⟨_, ⟨d, hd⟩, _⟩ | ⟨⟨e1, he1⟩, _⟩
            · simp [hcn, hd]
            · cases he1
          · right
            exact ⟨conn, e⟩

theorem zero_safe (w : World) :
    ((State.new w).m.client.isSome → (State.new w).m.conn.isSome) ∧
      ((State.new w).m.database.isSome ↔ (State.new w).m.collections.isSome) :=
  ⟨fun h => (by cases h), Iff.rfl⟩

/-- Claim C12. Take a manager reached from a zero-value manager by calls that
returned, and let it hold the client `cl`.  Then its configuration is set, and
`Ping(ctx)` adds exactly one driver call to the trace, the ping of `cl` with
the primary read preference and with `ctx` when `ctx` is not nil, or with the
stored context of the configuration when `ctx` is nil, and returns what the
driver answered, unmodified. -/
theorem C12_Ping_primary (drv : Driver) (w : World) (calls : List Call) (s : State)
    (tr : List (Call × Ret)) (cl : ClientHandle)
    (hrun : Mongodb.run drv (State.new w) calls = .ok (s, tr))
    (hcl : s.m.client = some cl) :
    ∃ conn, s.m.conn = some conn ∧
      (∀ c, Mongodb.Ping drv s (some c) =
        .ok ({ s with trace := s.trace ++ [DriverCall.Ping cl (some c) drv.Primary] },
             drv.Ping s.trace cl (some c) drv.Primary)) ∧
      Mongodb.Ping drv s none =
        .ok ({ s with trace := s.trace ++ [DriverCall.Ping cl conn.Context drv.Primary] },
             drv.Ping s.trace cl conn.Context drv.Primary) := by
  obtain ⟨⟨hj, _⟩, _⟩ := run_safe drv calls (State.new w) s tr hrun (zero_safe w)
  have hconn : s.m.conn.isSome := hj (by simp [hcl])
  obtain ⟨conn, hc⟩ := Option.isSome_iff_exists.mp hconn
  refine ⟨conn, hc, ?_, ?_⟩
  · intro c
    simp [Mongodb.Ping, hcl]
  · simp [Mongodb.Ping, hcl, hc]

theorem C12_Ping_primary_witness :
    ∃ tr, Mongodb.run demoDriver (State.new World.empty) [Call.Open (some demoConn)] =
        .ok (demoOpened, tr) ∧
      demoOpened.m.client = some { id := 0 } ∧
      ∃ conn, demoOpened.m.conn = some conn ∧
        (∀ c, Mongodb.Ping demoDriver demoOpened (some c) =
          .ok ({ demoOpened with
                  trace := demoOpened.trace ++
                    [DriverCall.Ping { id := 0 } (some c) demoDriver.Primary] },
               demoDriver.Ping demoOpened.trace { id := 0 } (some c) demoDriver.Primary)) ∧
        Mongodb.Ping demoDriver demoOpened none =
          .ok ({ demoOpened with
                  trace := demoOpened.trace ++
                    [DriverCall.Ping { id := 0 } conn.Context demoDriver.Primary] },
               demoDriver.Ping demoOpened.trace { id := 0 } conn.Context demoDriver.Primary) :=
  ⟨_, rfl, rfl,
   C12_Ping_primary demoDriver World.empty [Call.Open (some demoConn)] demoOpened _
     { id := 0 } rfl rfl⟩

/-- Claim C15. In every state reached from a zero-value manager by a sequence
of calls that returned, a client that is set comes with a configuration that
is set, and the database reference is set exactly when the cache map is.  When
in addition one of the calls was an `Open` that returned nil, then `Ping`,
`Close`, `Drop` and `Collection` all return: none of them dereferences a nil
configuration or database reference or writes to a nil map. -/
theorem C15_nil_safety (drv : Driver) (w : World) (calls : List Call) (s : State)
    (tr : List (Call × Ret))
    (hrun : Mongodb.run drv (State.new w) calls = .ok (s, tr)) :
    (s.m.client.isSome → s.m.conn.isSome) ∧
      (s.m.database.isSome ↔ s.m.collections.isSome) ∧
      ((∃ conn, (Call.Open conn, Ret.err none) ∈ tr) →
        ∀ (ctx : Option GoContext) (name : String),
          (∃ r, Mongodb.Ping drv s ctx = .ok r) ∧ (∃ r, Mongodb.Close drv s = .ok r) ∧
          (∃ r, Mongodb.Drop drv s = .ok r) ∧
          (∃ r, Mongodb.Collection drv s name = .ok r)) := by
  obtain ⟨⟨hj1, hj2⟩, hk⟩ := run_safe drv calls (State.new w) s tr hrun (zero_safe w)
  refine ⟨hj1, hj2, ?_⟩
  intro hopen ctx name
  obtain ⟨hconn, hdb⟩ := hk (Or.inr hopen)
  obtain ⟨conn, hc⟩ := Option.isSome_iff_exists.mp hconn
  obtain ⟨d, hd⟩ := Option.isSome_iff_exists.mp hdb
  obtain ⟨cm, hcm⟩ := Option.isSome_iff_exists.mp (hj2.mp hdb)
  refine ⟨?_, ?_, ?_, ?_⟩
  · cases hcl : s.m.client with
    | none => simp [Mongodb.Ping, hcl]
    | some cl =>
      cases ctx with
      | none => simp [Mongodb.Ping, hcl, hc]
      | some c => simp [Mongodb.Ping, hcl]
  · cases hcl : s.m.client with
    | none => simp [Mongodb.Close, hcl]
    | some cl => simp [Mongodb.Close, hcl, hc]
  · simp [Mongodb.Drop, hc, hd]
  · obtain ⟨s1, p, h1, _⟩ := Collection_step drv s name d cm hd hcm
    exact ⟨_, h1⟩

theorem C15_nil_safety_witness :
    ∃ s tr, Mongodb.run demoDriver (State.new World.empty)
        [Call.Open (some badDsnConn), Call.Ping none, Call.Open (some demoConn),
         Call.Collection "a", Call.Open (some badModeConn), Call.Close] = .ok (s, tr) ∧
      (s.m.client.isSome → s.m.conn.isSome) ∧
      (s.m.database.isSome ↔ s.m.collections.isSome) ∧
      ((∃ conn, (Call.Open conn, Ret.err none) ∈ tr) →
        ∀ (ctx : Option GoContext) (name : String),
          (∃ r, Mongodb.Ping demoDriver s ctx = .ok r) ∧
          (∃ r, Mongodb.Close demoDriver s = .ok r) ∧
          (∃ r, Mongodb.Drop demoDriver s = .ok r) ∧
          (∃ r, Mongodb.Collection demoDriver s name = .ok r)) :=
  ⟨_, _, rfl,
   C15_nil_safety demoDriver World.empty
     [Call.Open (some badDsnConn), Call.Ping none, Call.Open (some demoConn),
      Call.Collection "a", Call.Open (some badModeConn), Call.Close] _ _ rfl⟩

/-! ### The cursor wrapper -/

/-- Claim C14. For every cursor wrapper, world and context, `TryNext(ctx)` does
what `Next(ctx)` does: on a cursor that is set, both add the one driver call
`Next` (not the driver's `TryNext`) on the wrapped cursor to the trace and
return the boolean the driver's `Next` answered; on a nil cursor both fault.
So from equal states they return the same boolean and leave the same state. -/
theorem C14_TryNext_is_Next (drv : Driver) (w : World) (m : Cursor) (ctx : Option GoContext)
    (cur : CursorHandle) :
    Cursor.TryNext drv w m ctx = Cursor.Next drv w m ctx ∧
      Cursor.TryNext drv w { cursor := some cur } ctx =
        .ok ({ w with trace := w.trace ++ [DriverCall.CursorNext cur ctx] },
             drv.CursorNext w.trace cur ctx) ∧
      Cursor.Next drv w { cursor := some cur } ctx =
        .ok ({ w with trace := w.trace ++ [DriverCall.CursorNext cur ctx] },
             drv.CursorNext w.trace cur ctx) ∧
      DriverCall.CursorNext cur ctx ≠ DriverCall.CursorTryNext cur ctx ∧
      Cursor.TryNext drv w { cursor := none } ctx = .error Panic.nilDereference :=
  ⟨rfl, rfl, rfl, (by intro h; cases h), rfl⟩

theorem C14_TryNext_is_Next_example :
    Cursor.TryNext demoDriver World.empty { cursor := some { id := 7 } } none =
        .ok ({ World.empty with trace := [DriverCall.CursorNext { id := 7 } none] }, true) ∧
      demoDriver.CursorTryNext [] { id := 7 } none = false := by
  exact ⟨rfl, rfl⟩

/-! ### Concurrent first lookups of one name -/

theorem set_get (l : List Pc) (i j : Nat) (a b : Pc) (h : (l.set i a)[j]? = some b) :
    (j = i ∧ b = a) ∨ (j ≠ i ∧ l[j]? = some b) := by
  rw [List.getElem?_set] at h
  by_cases e : i = j
  · rw [if_pos e] at h
    left
    by_cases hl : i < l.length
    · rw [if_pos hl] at h
      cases h
      exact ⟨e.symm, rfl⟩
    · rw [if_neg hl] at h
      cases h
  · rw [if_neg e] at h
    exact Or.inr ⟨fun x => e x.symm, h⟩

/-- After caller `i` moved, every caller satisfies `Q` when the new place of
`i` does and the other callers did. -/
theorem pointwise_set (l : List Pc) (i : Nat) (a : Pc) (Q : Pc → Prop) (ha : Q a)
    (hothers : ∀ (j : Nat) (pj : Pc), j ≠ i → l[j]? = some pj → Q pj) :
    ∀ (j : Nat) (pj : Pc), (l.set i a)[j]? = some pj → Q pj := by
  intro j pj h
  rcases set_get l i j a pj h with ⟨_, e⟩ | ⟨hne, hold⟩
  · rw [e]
    exact ha
  · exact hothers j pj hne hold

/-- After caller `i` moved, at most one caller holds the lock when none of the
others did. -/
theorem excl_set (l : List Pc) (i : Nat) (a : Pc)
    (hothers : ∀ (j : Nat) (pj : Pc), j ≠ i → l[j]? = some pj → pj.holdsLock = false) :
    ∀ (j1 j2 : Nat) (p1 p2 : Pc), (l.set i a)[j1]? = some p1 → (l.set i a)[j2]? = some p2 →
      p1.holdsLock = true → p2.holdsLock = true → j1 = j2 := by
  intro j1 j2 p1 p2 h1 h2 c1 c2
  have e1 : j1 = i := by
    rcases set_get l i j1 a p1 h1 with ⟨e, _⟩ | ⟨hne, hold⟩
    · exact e
    · rw [hothers j1 p1 hne hold] at c1
      cases c1
  have e2 : j2 = i := by
    rcases set_get l i j2 a p2 h2 with ⟨e, _⟩ | ⟨hne, hold⟩
    · exact e
    · rw [hothers j2 p2 hne hold] at c2
      cases c2
  rw [e1, e2]

/-- While caller `i` holds the lock no other caller does. -/
theorem Inv_others (drv : Driver) (name : String) (h0 : List Collection)
    (t0 : List DriverCall) (d : DatabaseHandle) (c : Concurrent)
    (inv : Concurrent.Inv drv name h0 t0 d c) (i : Nat) (pc : Pc) (hi : c.pcs[i]? = some pc)
    (hpc : pc.holdsLock = true) :
    ∀ (j : Nat) (pj : Pc), j ≠ i → c.pcs[j]? = some pj → pj.holdsLock = false := by
  intro j pj hne hj
  cases hl : pj.holdsLock with
  | false => rfl
  | true => exact absurd (inv.excl j i pj pc hj hi hl hpc) hne

/-- While caller `i` holds the lock the mutex is taken. -/
theorem Inv_taken (drv : Driver) (name : String) (h0 : List Collection)
    (t0 : List DriverCall) (d : DatabaseHandle) (c : Concurrent)
    (inv : Concurrent.Inv drv name h0 t0 d c) (i : Nat) (pc : Pc) (hi : c.pcs[i]? = some pc)
    (hpc : pc.holdsLock = true) : c.mx = true := by
  cases hm : c.mx with
  | true => rfl
  | false =>
    have := inv.free hm i pc hi
    rw [hpc] at this
    cases this

/-- Every step of every caller returns and keeps the facts of
`Concurrent.Inv`. -/
theorem step_keeps_Inv (drv : Driver) (name : String) (h0 : List Collection)
    (t0 : List DriverCall) (d : DatabaseHandle) (c : Concurrent)
    (inv : Concurrent.Inv drv name h0 t0 d c) (i : Nat) :
    ∃ c1, Concurrent.step drv name c i = .ok c1 ∧ Concurrent.Inv drv name h0 t0 d c1 := by
  obtain ⟨cm, hcm⟩ := inv.map
  cases hi : c.pcs[i]? with
  | none => exact ⟨c, by simp [Concurrent.step, hi], inv⟩
  | some pc =>
    cases pc with
    | start =>
      cases hm : c.mx with
      | true => exact ⟨c, by simp [Concurrent.step, hi, hm], inv⟩
      | false =>
        have hothers : ∀ (j : Nat) (pj : Pc), j ≠ i → c.pcs[j]? = some pj →
            pj.holdsLock = false := fun j pj _ hj => inv.free hm j pj hj
        refine ⟨{ c with mx := true, pcs := c.pcs.set i Pc.locked },
          by simp [Concurrent.step, hi, hm], ?_⟩
        refine ⟨inv.db, inv.map, excl_set c.pcs i _ hothers, fun h => (by cases h), ?_⟩
        rcases inv.phase with ⟨h1, h2, h3, h4⟩ | ⟨_, hmx, _⟩ | ⟨h1, h2, h3, h4⟩
        · exact Or.inl ⟨h1, h2, h3, pointwise_set c.pcs i _ _ (Or.inr (Or.inl rfl))
            (fun j pj _ hj => h4 j pj hj)⟩
        · rw [hm] at hmx
          cases hmx
        · exact Or.inr (Or.inr ⟨h1, h2, h3, pointwise_set c.pcs i _ _ (Or.inr (Or.inl rfl))
            (fun j pj _ hj => h4 j pj hj)⟩)
    | locked =>
      have hothers := Inv_others drv name h0 t0 d c inv i Pc.locked hi rfl
      have hmx := Inv_taken drv name h0 t0 d c inv i Pc.locked hi rfl
      cases hc : c.s.m.cached name with
      | none =>
        refine ⟨{ c with pcs := c.pcs.set i Pc.missed }, by simp [Concurrent.step, hi, hc], ?_⟩
        refine ⟨inv.db, inv.map, excl_set c.pcs i _ hothers, ?_, ?_⟩
        · intro h
          rw [hmx] at h
          cases h
        · rcases inv.phase with ⟨h1, h2, h3, h4⟩ | ⟨_, _, _, _, h4⟩ | ⟨h1, _⟩
          · exact Or.inl ⟨h1, h2, h3, pointwise_set c.pcs i _ _ (Or.inr (Or.inr rfl))
              (fun j pj _ hj => h4 j pj hj)⟩
          · rcases h4 i _ hi with e | e <;> cases e
          · rw [hc] at h1
            cases h1
      | some col =>
        refine ⟨{ c with pcs := c.pcs.set i (Pc.found col) },
          by simp [Concurrent.step, hi, hc], ?_⟩
        refine ⟨inv.db, inv.map, excl_set c.pcs i _ hothers, ?_, ?_⟩
        · intro h
          rw [hmx] at h
          cases h
        · rcases inv.phase with ⟨h1, _⟩ | ⟨h1, _⟩ | ⟨h1, h2, h3, h4⟩
          · rw [hc] at h1
            cases h1
          · rw [hc] at h1
            cases h1
          · rw [hc] at h1
            cases h1
            exact Or.inr (Or.inr ⟨hc, h2, h3,
              pointwise_set c.pcs i _ _ (Or.inr (Or.inr (Or.inl rfl)))
                (fun j pj _ hj => h4 j pj hj)⟩)
    | missed =>
      have hothers := Inv_others drv name h0 t0 d c inv i Pc.missed hi rfl
      have hmx := Inv_taken drv name h0 t0 d c inv i Pc.missed hi rfl
      refine ⟨{ c with
                  s := { c.s with
                          trace := c.s.trace ++ [DriverCall.Collection d name],
                          heap := c.s.heap ++
                            [{ collection := drv.Collection c.s.trace d name }] },
                  pcs := c.pcs.set i (Pc.created c.s.heap.length) },
        by simp [Concurrent.step, hi, inv.db], ?_⟩
      refine ⟨inv.db, inv.map, excl_set c.pcs i _ hothers, ?_, ?_⟩
      · intro h
        rw [hmx] at h
        cases h
      · rcases inv.phase with ⟨h1, h2, h3, h4⟩ | ⟨_, _, _, _, h4⟩ | ⟨_, _, _, h4⟩
        · refine Or.inr (Or.inl ⟨h1, hmx, ?_, ?_, ?_⟩)
          · show c.s.heap ++ [{ collection := drv.Collection c.s.trace d name }] = _
            rw [h2, h3]
          · show c.s.trace ++ [DriverCall.Collection d name] = _
            rw [h3]
          · refine pointwise_set c.pcs i _ _ (Or.inr (by rw [h2])) ?_
            intro j pj hne hj
            left
            have hfree := hothers j pj hne hj
            rcases h4 j pj hj with e | e | e
            · exact e
            · rw [e] at hfree
              cases hfree
            · rw [e] at hfree
              cases hfree
        · rcases h4 i _ hi with e | e <;> cases e
        · rcases h4 i _ hi with e | e | e | e <;> cases e
    | created col =>
      have hothers := Inv_others drv name h0 t0 d c inv i (Pc.created col) hi rfl
      have hmx := Inv_taken drv name h0 t0 d c inv i (Pc.created col) hi rfl
      refine ⟨{ c with
                  s := { c.s with
                          m := { c.s.m with collections := some ((name, col) :: cm) } },
                  pcs := c.pcs.set i (Pc.found col) },
        by simp [Concurrent.step, hi, hcm], ?_⟩
      refine ⟨inv.db, ⟨_, rfl⟩, excl_set c.pcs i _ hothers, ?_, ?_⟩
      · intro h
        rw [hmx] at h
        cases h
      · rcases inv.phase with ⟨_, _, _, h4⟩ | ⟨_, _, h2, h3, h4⟩ | ⟨_, _, _, h4⟩
        · rcases h4 i _ hi with e | e | e <;> cases e
        · have hcol : col = h0.length := by
            rcases h4 i _ hi with e | e
            · cases e
            · cases e
              rfl
          subst hcol
          refine Or.inr (Or.inr ⟨?_, h2, h3, ?_⟩)
          · show Mongodb.cached
              { c.s.m with collections := some ((name, h0.length) :: cm) } name = _
            rw [cached_eq _ _ rfl, lookup_cons_eq, if_pos rfl]
          · refine pointwise_set c.pcs i _ _ (Or.inr (Or.inr (Or.inl rfl))) ?_
            intro j pj hne hj
            left
            have hfree := hothers j pj hne hj
            rcases h4 j pj hj with e | e
            · exact e
            · rw [e] at hfree
              cases hfree
        · rcases h4 i _ hi with e | e | e | e <;> cases e
    | found col =>
      have hothers := Inv_others drv name h0 t0 d c inv i (Pc.found col) hi rfl
      refine ⟨{ c with mx := false, pcs := c.pcs.set i (Pc.returned col) },
        by simp [Concurrent.step, hi], ?_⟩
      refine ⟨inv.db, inv.map, excl_set c.pcs i _ hothers, ?_, ?_⟩
      · intro _
        exact pointwise_set c.pcs i _ (fun p => p.holdsLock = false) rfl hothers
      · rcases inv.phase with ⟨_, _, _, h4⟩ | ⟨_, _, _, _, h4⟩ | ⟨h1, h2, h3, h4⟩
        · rcases h4 i _ hi with e | e | e <;> cases e
        · rcases h4 i _ hi with e | e <;> cases e
        · have hcol : col = h0.length := by
            rcases h4 i _ hi with e | e | e | e
            · cases e
            · cases e
            · cases e
              rfl
            · cases e
          subst hcol
          exact Or.inr (Or.inr ⟨h1, h2, h3,
            pointwise_set c.pcs i _ _ (Or.inr (Or.inr (Or.inr rfl)))
              (fun j pj _ hj => h4 j pj hj)⟩)
    | returned col => exact ⟨c, by simp [Concurrent.step, hi], inv⟩

/-- Every interleaving returns and keeps the facts of `Concurrent.Inv`. -/
theorem run_keeps_Inv (drv : Driver) (name : String) (h0 : List Collection)
    (t0 : List DriverCall) (d : DatabaseHandle) (sched : List Nat) :
    ∀ c, Concurrent.Inv drv name h0 t0 d c →
      ∃ c1, Concurrent.run drv name c sched = .ok c1 ∧ Concurrent.Inv drv name h0 t0 d c1 := by
  induction sched with
  | nil =>
    intro c inv
    exact ⟨c, rfl, inv⟩
  | cons i rest ih =>
    intro c inv
    obtain ⟨c1, h1, inv1⟩ := step_keeps_Inv drv name h0 t0 d c inv i
    obtain ⟨c2, h2, inv2⟩ := ih c1 inv1
    exact ⟨c2, by simp [Concurrent.run, h1, h2], inv2⟩

theorem init_Inv (drv : Driver) (name : String) (s : State) (d : DatabaseHandle)
    (cm : List (String × Nat)) (hd : s.m.database = some d) (hc : s.m.collections = some cm)
    (hnew : s.m.cached name = none) (k : Nat) :
    Concurrent.Inv drv name s.heap s.trace d (Concurrent.init s k) := by
  have hall : ∀ (i : Nat) (pi : Pc), (Concurrent.init s k).pcs[i]? = some pi → pi = Pc.start := by
    intro i pi h
    simp only [Concurrent.init, List.getElem?_replicate] at h
    split at h
    · cases h
      rfl
    · cases h
  refine ⟨hd, ⟨cm, hc⟩, ?_, ?_, Or.inl ⟨hnew, rfl, rfl, fun i pi h => Or.inl (hall i pi h)⟩⟩
  · intro i j pi pj hi _ hl _
    rw [hall i pi hi] at hl
    cases hl
  · intro _ i pi hi
    rw [hall i pi hi]
    rfl

/-- One caller alone, stepped through its five statements, does what the
method `Collection` does: the same fault, or the same state and the same
wrapper address with the mutex free again. -/
theorem Concurrent_solo (drv : Driver) (name : String) (s : State) :
    Concurrent.run drv name (Concurrent.init s 1) [0, 0, 0, 0, 0] =
      (Mongodb.Collection drv s name).map
        (fun r => { s := r.1, mx := false, pcs := [Pc.returned r.2] }) := by
  cases hc : s.m.cached name with
  | some col =>
    simp [Concurrent.run, Concurrent.step, Concurrent.init, Mongodb.Collection, hc, Except.map]
  | none =>
    cases hd : s.m.database with
    | none =>
      simp [Concurrent.run, Concurrent.step, Concurrent.init, Mongodb.Collection, hc, hd,
        Except.map]
    | some db =>
      cases hm : s.m.collections with
      | none =>
        simp [Concurrent.run, Concurrent.step, Concurrent.init, Mongodb.Collection, hc, hd, hm,
          Except.map]
      | some cm =>
        simp [Concurrent.run, Concurrent.step, Concurrent.init, Mongodb.Collection, hc, hd, hm,
          Except.map]

/-! ### Progress of concurrent lookups -/

theorem set_self (l : List Pc) (i : Nat) (old a : Pc) (h : l[i]? = some old) :
    (l.set i a)[i]? = some a := by
  obtain ⟨hlt, _⟩ := List.getElem?_eq_some.mp h
  exact List.getElem?_set_self hlt

theorem sum_set_lt (l : List Pc) :
    ∀ (i : Nat) (old a : Pc), l[i]? = some old → a.remaining < old.remaining →
      ((l.set i a).map Pc.remaining).sum < (l.map Pc.remaining).sum := by
  induction l with
  | nil =>
    intro i old a h _
    simp at h
  | cons x xs ih =>
    intro i old a h hlt
    cases i with
    | zero =>
      simp only [List.getElem?_cons_zero, Option.some.injEq] at h
      subst h
      simp only [List.set_cons_zero, List.map_cons, List.sum_cons]
      omega
    | succ n =>
      simp only [List.getElem?_cons_succ] at h
      have := ih n old a h hlt
      simp only [List.set_cons_succ, List.map_cons, List.sum_cons]
      omega

/-- A step of caller `i` returns.  Either nothing changes, which happens only
when `i` does not exist, waits for the taken mutex, or has returned; or the
statements that remain become fewer. -/
theorem step_cases (drv : Driver) (name : String) (h0 : List Collection)
    (t0 : List DriverCall) (d : DatabaseHandle) (c : Concurrent)
    (inv : Concurrent.Inv drv name h0 t0 d c) (i : Nat) :
    ∃ c1, Concurrent.step drv name c i = .ok c1 ∧
      ((c1 = c ∧ (c.pcs[i]? = none ∨ (c.pcs[i]? = some Pc.start ∧ c.mx = true) ∨
          ∃ p, c.pcs[i]? = some (Pc.returned p))) ∨
        c1.remaining < c.remaining) := by
  obtain ⟨cm, hcm⟩ := inv.map
  cases hi : c.pcs[i]? with
  | none => exact ⟨c, by simp [Concurrent.step, hi], Or.inl ⟨rfl, Or.inl rfl⟩⟩
  | some pc =>
    cases pc with
    | start =>
      cases hm : c.mx with
      | true =>
        exact ⟨c, by simp [Concurrent.step, hi, hm], Or.inl ⟨rfl, Or.inr (Or.inl ⟨rfl, rfl⟩)⟩⟩
      | false =>
        exact ⟨{ c with mx := true, pcs := c.pcs.set i Pc.locked },
          by simp [Concurrent.step, hi, hm],
          Or.inr (sum_set_lt c.pcs i _ _ hi (by decide))⟩
    | locked =>
      cases hc : c.s.m.cached name with
      | none =>
        exact ⟨{ c with pcs := c.pcs.set i Pc.missed }, by simp [Concurrent.step, hi, hc],
          Or.inr (sum_set_lt c.pcs i _ _ hi (by decide))⟩
      | some col =>
        exact ⟨{ c with pcs := c.pcs.set i (Pc.found col) },
          by simp [Concurrent.step, hi, hc],
          Or.inr (sum_set_lt c.pcs i _ _ hi (by simp [Pc.remaining]))⟩
    | missed =>
      exact ⟨{ c with
                s := { c.s with
                        trace := c.s.trace ++ [DriverCall.Collection d name],
                        heap := c.s.heap ++
                          [{ collection := drv.Collection c.s.trace d name }] },
                pcs := c.pcs.set i (Pc.created c.s.heap.length) },
        by simp [Concurrent.step, hi, inv.db],
        Or.inr (sum_set_lt c.pcs i _ _ hi (by simp [Pc.remaining]))⟩
    | created col =>
      exact ⟨{ c with
                s := { c.s with
                        m := { c.s.m with collections := some ((name, col) :: cm) } },
                pcs := c.pcs.set i (Pc.found col) },
        by simp [Concurrent.step, hi, hcm],
        Or.inr (sum_set_lt c.pcs i _ _ hi (by simp [Pc.remaining]))⟩
    | found col =>
      exact ⟨{ c with mx := false, pcs := c.pcs.set i (Pc.returned col) },
        by simp [Concurrent.step, hi],
        Or.inr (sum_set_lt c.pcs i _ _ hi (by simp [Pc.remaining]))⟩
    | returned col =>
      exact ⟨c, by simp [Concurrent.step, hi], Or.inl ⟨rfl, Or.inr (Or.inr ⟨col, rfl⟩)⟩⟩

/-- A step keeps the number of callers, and keeps a taken mutex held by a
caller. -/
theorem step_keeps_Held (drv : Driver) (name : String) (c c1 : Concurrent) (i : Nat)
    (held : c.Held) (h : Concurrent.step drv name c i = .ok c1) :
    c1.Held ∧ c1.pcs.length = c.pcs.length := by
  cases hi : c.pcs[i]? with
  | none =>
    simp only [Concurrent.step, hi] at h
    cases h
    exact ⟨held, rfl⟩
  | some pc =>
    cases pc with
    | start =>
      cases hm : c.mx with
      | true =>
        simp [Concurrent.step, hi, hm] at h
        subst h
        exact ⟨held, rfl⟩
      | false =>
        simp [Concurrent.step, hi, hm] at h
        subst h
        exact ⟨fun _ => ⟨i, Pc.locked, set_self c.pcs i _ _ hi, rfl⟩, List.length_set _ _ _⟩
    | locked =>
      cases hc : c.s.m.cached name with
      | none =>
        simp [Concurrent.step, hi, hc] at h
        subst h
        exact ⟨fun _ => ⟨i, Pc.missed, set_self c.pcs i _ _ hi, rfl⟩, List.length_set _ _ _⟩
      | some col =>
        simp [Concurrent.step, hi, hc] at h
        subst h
        exact ⟨fun _ => ⟨i, Pc.found col, set_self c.pcs i _ _ hi, rfl⟩,
          List.length_set _ _ _⟩
    | missed =>
      cases hd : c.s.m.database with
      | none => simp [Concurrent.step, hi, hd] at h
      | some db =>
        simp [Concurrent.step, hi, hd] at h
        subst h
        exact ⟨fun _ => ⟨i, Pc.created c.s.heap.length, set_self c.pcs i _ _ hi, rfl⟩,
          List.length_set _ _ _⟩
    | created col =>
      cases hcm : c.s.m.collections with
      | none => simp [Concurrent.step, hi, hcm] at h
      | some cm =>
        simp [Concurrent.step, hi, hcm] at h
        subst h
        exact ⟨fun _ => ⟨i, Pc.found col, set_self c.pcs i _ _ hi, rfl⟩,
          List.length_set _ _ _⟩
    | found col =>
      simp [Concurrent.step, hi] at h
      subst h
      exact ⟨fun hmx => (by cases hmx), List.length_set _ _ _⟩
    | returned col =>
      simp [Concurrent.step, hi] at h
      subst h
      exact ⟨held, rfl⟩

theorem run_keeps_Held (drv : Driver) (name : String) (sched : List Nat) :
    ∀ (c c1 : Concurrent), c.Held → Concurrent.run drv name c sched = .ok c1 →
      c1.Held ∧ c1.pcs.length = c.pcs.length := by
  induction sched with
  | nil =>
    intro c c1 held h
    simp only [Concurrent.run] at h
    cases h
    exact ⟨held, rfl⟩
  | cons i rest ih =>
    intro c c1 held h
    simp only [Concurrent.run] at h
    split at h
    · cases h
    · rename_i c2 h2
      obtain ⟨held2, hlen2⟩ := step_keeps_Held drv name c c2 i held h2
      obtain ⟨held1, hlen1⟩ := ih c2 c1 held2 h
      exact ⟨held1, hlen1.trans hlen2⟩

/-- A caller that has returned holds the first free address; the wrapper is
then cached and stored there, and exactly one wrapper and one driver call were
added. -/
theorem Inv_returned (drv : Driver) (name : String) (h0 : List Collection)
    (t0 : List DriverCall) (d : DatabaseHandle) (c : Concurrent)
    (inv : Concurrent.Inv drv name h0 t0 d c) (i p : Nat)
    (hi : c.pcs[i]? = some (Pc.returned p)) :
    p = h0.length ∧ c.s.m.cached name = some h0.length ∧
      c.s.heap = h0 ++ [{ collection := drv.Collection t0 d name }] ∧
      c.s.trace = t0 ++ [DriverCall.Collection d name] := by
  rcases inv.phase with ⟨_, _, _, h4⟩ | ⟨_, _, _, _, h4⟩ | ⟨h1, h2, h3, h4⟩
  · rcases h4 i _ hi with e | e | e <;> cases e
  · rcases h4 i _ hi with e | e <;> cases e
  · have hp : p = h0.length := by
      rcases h4 i _ hi with e | e | e | e
      · cases e
      · cases e
      · cases e
      · cases e
        rfl
    exact ⟨hp, h1, h2, h3⟩

/-- No deadlock: while some caller has not returned, some caller can execute a
statement, and that brings the callers nearer to return. -/
theorem enabled_exists (drv : Driver) (name : String) (h0 : List Collection)
    (t0 : List DriverCall) (d : DatabaseHandle) (c : Concurrent)
    (inv : Concurrent.Inv drv name h0 t0 d c) (held : c.Held)
    (hnot : ¬ ∀ (i : Nat) (pi : Pc), c.pcs[i]? = some pi → ∃ p, pi = Pc.returned p) :
    ∃ j c1, Concurrent.step drv name c j = .ok c1 ∧ c1.remaining < c.remaining := by
  by_cases hlock : ∃ (j : Nat) (pj : Pc), c.pcs[j]? = some pj ∧ pj.holdsLock = true
  · obtain ⟨j, pj, hj, hl⟩ := hlock
    obtain ⟨c1, h1, hcase⟩ := step_cases drv name h0 t0 d c inv j
    refine ⟨j, c1, h1, ?_⟩
    rcases hcase with ⟨_, hst⟩ | hlt
    · rcases hst with e | ⟨e, _⟩ | ⟨p, e⟩
      · rw [hj] at e
        cases e
      · rw [hj] at e
        cases e
        cases hl
      · rw [hj] at e
        cases e
        cases hl
    · exact hlt
  · have hmx : c.mx = false := by
      cases hm : c.mx with
      | false => rfl
      | true => exact absurd (held hm) hlock
    have hex : ∃ (i : Nat) (pi : Pc), c.pcs[i]? = some pi ∧ ¬ ∃ p, pi = Pc.returned p := by
      by_contra hcon
      apply hnot
      intro i pi hi
      by_contra hnr
      exact hcon ⟨i, pi, hi, hnr⟩
    obtain ⟨i, pi, hi, hnr⟩ := hex
    have hfree : pi.holdsLock = false := by
      cases hl : pi.holdsLock with
      | false => rfl
      | true => exact absurd ⟨i, pi, hi, hl⟩ hlock
    obtain ⟨c1, h1, hcase⟩ := step_cases drv name h0 t0 d c inv i
    refine ⟨i, c1, h1, ?_⟩
    rcases hcase with ⟨_, hst⟩ | hlt
    · rcases hst with e | ⟨_, e⟩ | ⟨p, e⟩
      · rw [hi] at e
        cases e
      · rw [hmx] at e
        cases e
      · rw [hi] at e
        cases e
        exact absurd ⟨p, rfl⟩ hnr
    · exact hlt

/-- Every point of a run can be continued to a point at which all callers
have returned. -/
theorem complete_exists (drv : Driver) (name : String) (h0 : List Collection)
    (t0 : List DriverCall) (d : DatabaseHandle) (n : Nat) :
    ∀ c : Concurrent, c.remaining ≤ n → Concurrent.Inv drv name h0 t0 d c → c.Held →
      ∃ (more : List Nat) (c2 : Concurrent), Concurrent.run drv name c more = .ok c2 ∧
        Concurrent.Inv drv name h0 t0 d c2 ∧ c2.Held ∧ c2.pcs.length = c.pcs.length ∧
        ∀ (i : Nat) (pi : Pc), c2.pcs[i]? = some pi → ∃ p, pi = Pc.returned p := by
  induction n with
  | zero =>
    intro c hn inv held
    by_cases hall : ∀ (i : Nat) (pi : Pc), c.pcs[i]? = some pi → ∃ p, pi = Pc.returned p
    · exact ⟨[], c, rfl, inv, held, rfl, hall⟩
    · obtain ⟨j, c1, _, hlt⟩ := enabled_exists drv name h0 t0 d c inv held hall
      omega
  | succ n ih =>
    intro c hn inv held
    by_cases hall : ∀ (i : Nat) (pi : Pc), c.pcs[i]? = some pi → ∃ p, pi = Pc.returned p
    · exact ⟨[], c, rfl, inv, held, rfl, hall⟩
    · obtain ⟨j, c1, h1, hlt⟩ := enabled_exists drv name h0 t0 d c inv held hall
      obtain ⟨c1b, h1b, inv1⟩ := step_keeps_Inv drv name h0 t0 d c inv j
      rw [h1] at h1b
      cases h1b
      obtain ⟨held1, hlen1⟩ := step_keeps_Held drv name c c1 j held h1
      obtain ⟨more, c2, h2, inv2, held2, hlen2, hall2⟩ := ih c1 (by omega) inv1 held1
      exact ⟨j :: more, c2, by simp [Concurrent.run, h1, h2], inv2, held2,
        hlen2.trans hlen1, hall2⟩

/-- When all `k` callers have returned they all hold the first free address
and the mutex is free. -/
theorem all_returned (drv : Driver) (name : String) (h0 : List Collection)
    (t0 : List DriverCall) (d : DatabaseHandle) (c : Concurrent) (k : Nat)
    (inv : Concurrent.Inv drv name h0 t0 d c) (held : c.Held) (hlen : c.pcs.length = k)
    (hall : ∀ (i : Nat) (pi : Pc), c.pcs[i]? = some pi → ∃ p, pi = Pc.returned p) :
    c.pcs = List.replicate k (Pc.returned h0.length) ∧ c.mx = false := by
  constructor
  · rw [List.eq_replicate_iff]
    refine ⟨hlen, ?_⟩
    intro b hb
    obtain ⟨i, hi⟩ := List.mem_iff_getElem?.mp hb
    obtain ⟨p, hp⟩ := hall i b hi
    subst hp
    rw [(Inv_returned drv name h0 t0 d c inv i p hi).1]
  · cases hm : c.mx with
    | false => rfl
    | true =>
      obtain ⟨i, pi, hi, hl⟩ := held hm
      obtain ⟨p, hp⟩ := hall i pi hi
      subst hp
      cases hl

theorem init_Held (s : State) (k : Nat) : (Concurrent.init s k).Held := by
  intro h
  cases h

/-- Claim C13. On a manager on which `Open` has succeeded, let `name` be a name
that is not cached, let any number `k` of callers execute `Collection(name)`
concurrently, and let the schedule be any interleaving of their statements
(the mutex modelled as above).  The run does not fault.  Safety: every caller
that has returned holds the same wrapper address, the first free one, at which
the cache and the heap hold the one wrapper of `name`; at most one wrapper was
created and at most one driver call was made.  Progress: every further step
of a caller returns and, unless the caller waits for the mutex or has
returned, leaves fewer statements to execute; when no caller can change
anything any more, all `k` callers have returned that address and the mutex
is free; and the run can always be continued to such an end, at which (for
`k > 0`) exactly one wrapper was created by exactly one driver call. -/
theorem C13_concurrent_first_lookups (drv : Driver) (s : State) (hop : Opened drv s)
    (name : String) (hnew : s.m.cached name = none) (k : Nat) (sched : List Nat) :
    ∃ c d, s.m.database = some d ∧
      Concurrent.run drv name (Concurrent.init s k) sched = .ok c ∧
      (∀ (i j : Nat) (p q : Nat), c.pcs[i]? = some (Pc.returned p) →
        c.pcs[j]? = some (Pc.returned q) → p = q) ∧
      (∀ (i : Nat) (p : Nat), c.pcs[i]? = some (Pc.returned p) →
        p = s.heap.length ∧ c.s.m.cached name = some p ∧
        c.s.heap[p]? = some { collection := drv.Collection s.trace d name }) ∧
      (c.s.heap = s.heap ∨
        c.s.heap = s.heap ++ [{ collection := drv.Collection s.trace d name }]) ∧
      (c.s.trace = s.trace ∨ c.s.trace = s.trace ++ [DriverCall.Collection d name]) ∧
      (∀ i : Nat, ∃ c1, Concurrent.step drv name c i = .ok c1 ∧
        (c1 = c ∨ c1.remaining < c.remaining)) ∧
      ((∀ i : Nat, Concurrent.step drv name c i = .ok c) →
        c.pcs = List.replicate k (Pc.returned s.heap.length) ∧ c.mx = false) ∧
      (∃ (more : List Nat) (c2 : Concurrent), Concurrent.run drv name c more = .ok c2 ∧
        c2.pcs = List.replicate k (Pc.returned s.heap.length) ∧ c2.mx = false ∧
        (0 < k → c2.s.m.cached name = some s.heap.length ∧
          c2.s.heap = s.heap ++ [{ collection := drv.Collection s.trace d name }] ∧
          c2.s.trace = s.trace ++ [DriverCall.Collection d name])) ∧
      (0 < k → c.pcs = List.replicate k (Pc.returned s.heap.length) →
        c.s.m.cached name = some s.heap.length ∧
        c.s.heap = s.heap ++ [{ collection := drv.Collection s.trace d name }] ∧
        c.s.trace = s.trace ++ [DriverCall.Collection d name]) := by
  obtain ⟨⟨d, hd⟩, ⟨cm, hcm⟩⟩ := Opened_inv drv s hop
  obtain ⟨c, hrun, inv⟩ := run_keeps_Inv drv name s.heap s.trace d sched
    (Concurrent.init s k) (init_Inv drv name s d cm hd hcm hnew k)
  obtain ⟨held, hlen0⟩ := run_keeps_Held drv name sched (Concurrent.init s k) c
    (init_Held s k) hrun
  have hlen : c.pcs.length = k := by
    rw [hlen0]
    simp [Concurrent.init]
  have hret : ∀ (i : Nat) (p : Nat), c.pcs[i]? = some (Pc.returned p) →
      p = s.heap.length ∧ c.s.m.cached name = some p ∧
      c.s.heap[p]? = some { collection := drv.Collection s.trace d name } := by
    intro i p hi
    obtain ⟨hp, h1, h2, _⟩ := Inv_returned drv name s.heap s.trace d c inv i p hi
    subst hp
    refine ⟨rfl, h1, ?_⟩
    rw [h2]
    exact List.getElem?_concat_length _ _
  have hfirst : ∀ (c3 : Concurrent), Concurrent.Inv drv name s.heap s.trace d c3 → 0 < k →
      c3.pcs = List.replicate k (Pc.returned s.heap.length) →
      c3.s.m.cached name = some s.heap.length ∧
      c3.s.heap = s.heap ++ [{ collection := drv.Collection s.trace d name }] ∧
      c3.s.trace = s.trace ++ [DriverCall.Collection d name] := by
    intro c3 inv3 hk hpcs
    have h0 : c3.pcs[0]? = some (Pc.returned s.heap.length) := by
      rw [hpcs]
      exact List.getElem?_replicate_of_lt hk
    exact (Inv_returned drv name s.heap s.trace d c3 inv3 0 _ h0).2
  refine ⟨c, d, hd, hrun, ?_, hret, ?_, ?_, ?_, ?_, ?_, hfirst c inv⟩
  · intro i j p q hi hj
    rw [(hret i p hi).1, (hret j q hj).1]
  · rcases inv.phase with ⟨_, h2, _, _⟩ | ⟨_, _, h2, _, _⟩ | ⟨_, h2, _, _⟩
    · exact Or.inl h2
    · exact Or.inr h2
    · exact Or.inr h2
  · rcases inv.phase with ⟨_, _, h3, _⟩ | ⟨_, _, _, h3, _⟩ | ⟨_, _, h3, _⟩
    · exact Or.inl h3
    · exact Or.inr h3
    · exact Or.inr h3
  · intro i
    obtain ⟨c1, h1, hcase⟩ := step_cases drv name s.heap s.trace d c inv i
    refine ⟨c1, h1, ?_⟩
    rcases hcase with ⟨e, _⟩ | hlt
    · exact Or.inl e
    · exact Or.inr hlt
  · intro hquiet
    apply all_returned drv name s.heap s.trace d c k inv held hlen
    by_contra hnot
    obtain ⟨j, c1, h1, hlt⟩ := enabled_exists drv name s.heap s.trace d c inv held hnot
    rw [hquiet j] at h1
    cases h1
    exact Nat.lt_irrefl _ hlt
  · obtain ⟨more, c2, h2, inv2, held2, hlen2, hall2⟩ :=
      complete_exists drv name s.heap s.trace d c.remaining c (Nat.le_refl _) inv held
    obtain ⟨hpcs, hmx⟩ := all_returned drv name s.heap s.trace d c2 k inv2 held2
      (hlen2.trans hlen) hall2
    exact ⟨more, c2, h2, hpcs, hmx, fun hk => hfirst c2 inv2 hk hpcs⟩

/-- Three callers, interleaved: caller 1 takes the mutex first and creates
the wrapper while callers 0 and 2 wait; all three return wrapper 0, one
wrapper is created and one driver call is made. -/
theorem C13_concurrent_example :
    ∃ s1, Concurrent.run demoDriver "a" (Concurrent.init demoOpened 3)
        [1, 0, 2, 1, 0, 1, 1, 2, 1, 0, 2, 0, 0, 2, 2, 2] =
      .ok { s := s1, mx := false, pcs := [Pc.returned 0, Pc.returned 0, Pc.returned 0] } ∧
      s1.heap = [{ collection := { id := 3 } }] ∧
      s1.trace = demoOpened.trace ++ [DriverCall.Collection { id := 2 } "a"] :=
  ⟨_, rfl, rfl, rfl⟩

theorem C13_concurrent_first_lookups_witness :
    Opened demoDriver demoOpened ∧ demoOpened.m.cached "a" = none ∧
    (∃ c d, demoOpened.m.database = some d ∧
      Concurrent.run demoDriver "a" (Concurrent.init demoOpened 3)
        [1, 0, 2, 1, 0, 1, 1, 2, 1, 0, 2, 0, 0, 2, 2, 2] = .ok c ∧
      (∀ (i j : Nat) (p q : Nat), c.pcs[i]? = some (Pc.returned p) →
        c.pcs[j]? = some (Pc.returned q) → p = q) ∧
      (∀ (i : Nat) (p : Nat), c.pcs[i]? = some (Pc.returned p) →
        p = demoOpened.heap.length ∧ c.s.m.cached "a" = some p ∧
        c.s.heap[p]? = some { collection := demoDriver.Collection demoOpened.trace d "a" }) ∧
      (c.s.heap = demoOpened.heap ∨
        c.s.heap = demoOpened.heap ++ [{ collection := demoDriver.Collection demoOpened.trace d "a" }]) ∧
      (c.s.trace = demoOpened.trace ∨ c.s.trace = demoOpened.trace ++ [DriverCall.Collection d "a"]) ∧
      (∀ i : Nat, ∃ c1, Concurrent.step demoDriver "a" c i = .ok c1 ∧
        (c1 = c ∨ c1.remaining < c.remaining)) ∧
      ((∀ i : Nat, Concurrent.step demoDriver "a" c i = .ok c) →
        c.pcs = List.replicate 3 (Pc.returned demoOpened.heap.length) ∧ c.mx = false) ∧
      (∃ (more : List Nat) (c2 : Concurrent), Concurrent.run demoDriver "a" c more = .ok c2 ∧
        c2.pcs = List.replicate 3 (Pc.returned demoOpened.heap.length) ∧ c2.mx = false ∧
        (0 < 3 → c2.s.m.cached "a" = some demoOpened.heap.length ∧
          c2.s.heap = demoOpened.heap ++ [{ collection := demoDriver.Collection demoOpened.trace d "a" }] ∧
          c2.s.trace = demoOpened.trace ++ [DriverCall.Collection d "a"])) ∧
      (0 < 3 → c.pcs = List.replicate 3 (Pc.returned demoOpened.heap.length) →
        c.s.m.cached "a" = some demoOpened.heap.length ∧
        c.s.heap = demoOpened.heap ++ [{ collection := demoDriver.Collection demoOpened.trace d "a" }] ∧
        c.s.trace = demoOpened.trace ++ [DriverCall.Collection d "a"])) ∧
    ∃ c, Concurrent.run demoDriver "a" (Concurrent.init demoOpened 3)
        [1, 0, 2, 1, 0, 1, 1, 2, 1, 0, 2, 0, 0, 2, 2, 2] = .ok c ∧
      c.pcs = [Pc.returned 0, Pc.returned 0, Pc.returned 0] ∧ c.mx = false ∧
      c.s.heap = [{ collection := { id := 3 } }] ∧
      c.s.trace = demoOpened.trace ++ [DriverCall.Collection { id := 2 } "a"] :=
  ⟨Opened.afterOpen demoOpen_eq, rfl,
   C13_concurrent_first_lookups demoDriver demoOpened (Opened.afterOpen demoOpen_eq) "a" rfl 3
     [1, 0, 2, 1, 0, 1, 1, 2, 1, 0, 2, 0, 0, 2, 2, 2],
   ⟨_, rfl, rfl, rfl, rfl, rfl⟩⟩

end MgoWrapper
